import Mathlib

/-!
# Spinarak (Go port): a shallow embedding of `main.go`

The program builds a libget repository: it scans the working directory for
package folders, resolves every asset of every package (local file, HTTP
download, nested zip), writes an install manifest, an `info.json`, a zip
archive per package and a final `repo.json`.

Modelling decisions (all of them are visible in the definitions below):

* Go strings are Lean `String`s; file contents are byte lists (`Bytes`), and a
  string that goes into a file goes there in UTF-8 (`utf8`).
* `interface{}` values are `GoVal`s; a failed type assertion is a Go panic and
  is an explicit outcome (`Outcome.panic`, `none` in the cast helpers).
* The file system is a tree (`FNode`); operations fail only for structural
  reasons (missing parent, file where a directory is needed, ...), never for
  permissions or lack of space.
* `encoding/json`, `archive/zip`, `net/http`, `time` and the random temp-name
  generator are parameters (`Env`, `State.tmpNames`).
* Console output is a list of `Msg` events, one constructor per format string.
* The recursion `handleAsset → handleAssetType → handleAsset` is by fuel; the
  entry point `handleAsset` supplies `depthKVs asset + 1`, which is shown to be
  enough (`handleAssetFuel_ends`), and `handleAsset` is shown to satisfy the
  recursion of the source (`handleAsset_eq`).
* An open file is identified with the file at its path, which is exact as
  long as the file is not removed while the handle is in use.  The manifest
  handle (`State.manifest`) is that path together with its write offset; every
  write goes into the file at once, at that offset.  The temp file that
  `handleAsset` hands to `handleAssetType` is passed as its path and read when
  the source reads it.
* `zipDirectory` on an archive path inside the tree it archives copies the
  archive into itself: it does not return once `zip.Writer` has flushed bytes
  to the file (`Env.zipFlushed`, outcome `hangs`).
* In the example trees the entries of a directory are listed in name order.
-/

namespace Spinarak

/-! ## Strings (package `strings`) -/

/-- Drop `pre` from the front of `s` when `s` starts with it. -/
def dropFront : List Char → List Char → Option (List Char)
  | [], s => some s
  | _ :: _, [] => none
  | p :: ps, c :: cs => if p = c then dropFront ps cs else none

/-- Go `strings.HasPrefix`. -/
def stringsHasPrefix (s pre : String) : Bool :=
  (dropFront pre.data s.data).isSome

/-- Go `strings.TrimPrefix`. -/
def stringsTrimPrefix (s pre : String) : String :=
  match dropFront pre.data s.data with
  | some rest => String.mk rest
  | none => s

/-- Go `strings.HasSuffix`. -/
def stringsHasSuffix (s suffix : String) : Bool :=
  (dropFront suffix.data.reverse s.data.reverse).isSome

/-- Go `strings.ToUpper(s[:1])`: the upper-cased first byte of `s`.  It is only
evaluated on the four lower-case ASCII type names. -/
def upperFirst (s : String) : String :=
  String.mk ((s.data.take 1).map Char.toUpper)

/-! ## Bytes -/

/-- A byte (a number below 256). -/
abbrev Byte := Nat

/-- File contents, HTTP bodies and encoded documents. -/
abbrev Bytes := List Byte

/-- The UTF-8 encoding of a character. -/
def utf8Char (c : Char) : Bytes :=
  if c.toNat < 128 then [c.toNat]
  else if c.toNat < 2048 then [192 + c.toNat / 64, 128 + c.toNat % 64]
  else if c.toNat < 65536 then
    [224 + c.toNat / 4096, 128 + c.toNat / 64 % 64, 128 + c.toNat % 64]
  else
    [240 + c.toNat / 262144, 128 + c.toNat / 4096 % 64, 128 + c.toNat / 64 % 64,
      128 + c.toNat % 64]

/-- The UTF-8 encoding of a list of characters. -/
def utf8Chars : List Char → Bytes
  | [] => []
  | c :: cs => utf8Char c ++ utf8Chars cs

/-- The bytes of a Go string. -/
def utf8 (s : String) : Bytes :=
  utf8Chars s.data

/-! ## Paths (package `path/filepath`, Unix) -/

/-- Split at every slash (`strings.Split(s, "/")`). -/
def splitSlash : List Char → List (List Char)
  | [] => [[]]
  | c :: cs =>
    if c = '/' then [] :: splitSlash cs
    else
      match splitSlash cs with
      | [] => [[c]]
      | h :: t => (c :: h) :: t

/-- The slash-separated elements of a path string. -/
def pathElems (s : String) : List String :=
  (splitSlash s.data).map String.mk

/-- Join names with single slashes. -/
def joinSlash : List String → String
  | [] => ""
  | [a] => a
  | a :: b :: rest => a ++ "/" ++ joinSlash (b :: rest)

/-- Does the path start with a slash? -/
def isRooted (s : String) : Bool :=
  s.data.head? = some '/'

/-- The lexical processing of `filepath.Clean`: `acc` is the stack of kept
elements, innermost first.  Empty and `.` elements are dropped, `..` removes
the element before it, is dropped at the root, and is kept at the front of a
relative path. -/
def cleanElems (rooted : Bool) : List String → List String → List String
  | acc, [] => acc.reverse
  | acc, c :: cs =>
    if c = "" ∨ c = "." then cleanElems rooted acc cs
    else if c = ".." then
      match acc with
      | [] => if rooted then cleanElems rooted [] cs else cleanElems rooted [".."] cs
      | top :: below =>
        if top = ".." then cleanElems rooted (".." :: top :: below) cs
        else cleanElems rooted below cs
    else cleanElems rooted (c :: acc) cs

/-- Go `filepath.Clean`. -/
def filepathClean (s : String) : String :=
  let es := cleanElems (isRooted s) [] (pathElems s)
  if isRooted s then "/" ++ joinSlash es
  else if es = [] then "." else joinSlash es

/-- Go `filepath.Join`: leading empty elements are ignored, the rest is joined
with slashes and cleaned.  An absolute later element does NOT restart the
path. -/
def filepathJoin : List String → String
  | [] => ""
  | e :: es => if e = "" then filepathJoin es else filepathClean (joinSlash (e :: es))

/-- Everything up to and including the last slash (`filepath.Split`). -/
def dirPart (s : List Char) : List Char :=
  (s.reverse.dropWhile (fun c => c != '/')).reverse

/-- Go `filepath.Dir`. -/
def filepathDir (s : String) : String :=
  filepathClean (String.mk (dirPart s.data))

/-- Go `filepath.Base`. -/
def filepathBase (s : String) : String :=
  if s = "" then "."
  else
    let t := (s.data.reverse.dropWhile (fun c => c == '/'))
    if t = [] then "/"
    else String.mk (t.takeWhile (fun c => c != '/')).reverse

/-! ## Dynamically typed values (`interface{}`) -/

/-- The dynamic types that occur in the program.  `encoding/json` produces
`null`, `bool`, `float64`, `str`, `arr` and `obj` only; `int64`, `int` and
`strSlice` values are made by the Go code itself.  The payload of `float64` is
never inspected by the program. -/
inductive GoVal where
  | null
  | bool (b : Bool)
  | float64 (x : Int)
  | int64 (n : Int)
  | int (n : Int)
  | str (s : String)
  | strSlice (xs : List String)
  | arr (xs : List GoVal)
  | obj (kvs : List (String × GoVal))

/-- A Go `map[string]interface{}`: an association list, first binding wins. -/
abbrev GoMap := List (String × GoVal)

/-- Map lookup with the comma-ok form `v, ok := m[k]`. -/
def GoMap.find (m : GoMap) (k : String) : Option GoVal :=
  match m with
  | [] => none
  | (k', v) :: rest => if k' = k then some v else GoMap.find rest k

/-- Map index `m[k]`: the nil interface when the key is absent. -/
def GoMap.get (m : GoMap) (k : String) : GoVal :=
  (m.find k).getD .null

/-- Map assignment `m[k] = v`. -/
def GoMap.set (m : GoMap) (k : String) (v : GoVal) : GoMap :=
  match m with
  | [] => [(k, v)]
  | (k', v') :: rest => if k' = k then (k, v) :: rest else (k', v') :: GoMap.set rest k v

/-- Type assertion `v.(string)`; `none` is a panic. -/
def castStr : GoVal → Option String
  | .str s => some s
  | _ => none

/-- Type assertion `v.(bool)`. -/
def castBool : GoVal → Option Bool
  | .bool b => some b
  | _ => none

/-- Type assertion `v.(int64)`. -/
def castInt64 : GoVal → Option Int
  | .int64 n => some n
  | _ => none

/-- Type assertion `v.([]interface{})`. -/
def castArr : GoVal → Option (List GoVal)
  | .arr xs => some xs
  | _ => none

/-- Type assertion `v.(map[string]interface{})`. -/
def castObj : GoVal → Option GoMap
  | .obj kvs => some kvs
  | _ => none

/-- Comparison `s == v` of a string with an interface value. -/
def eqStrVal (s : String) : GoVal → Bool
  | .str t => s = t
  | _ => false

mutual
/-- Nesting depth of a value. -/
def GoVal.depth : GoVal → Nat
  | .arr xs => depthList xs + 1
  | .obj kvs => depthKVs kvs + 1
  | _ => 0
/-- Largest depth in a list of values. -/
def depthList : List GoVal → Nat
  | [] => 0
  | x :: xs => max x.depth (depthList xs)
/-- Largest depth among the values of a map. -/
def depthKVs : List (String × GoVal) → Nat
  | [] => 0
  | (_, v) :: kvs => max v.depth (depthKVs kvs)
end

/-! ## The file system -/

/-- A file system node.  The entries of a directory are kept in file-name
order, the order in which `os.ReadDir` and the `filepath.Walk` family list
them. -/
inductive FNode where
  | file (content : Bytes)
  | dir (entries : List (String × FNode))

/-- Is the node a directory? -/
def FNode.isDir : FNode → Bool
  | .dir _ => true
  | .file _ => false

/-- Size in bytes, as `FileInfo.Size` gives it: the length of a regular file,
and for a directory the number `dirSize` that the system reports. -/
def FNode.size (dirSize : Nat) : FNode → Nat
  | .file c => c.length
  | .dir _ => dirSize

/-- Byte-wise order of names. -/
def ltChars : List Char → List Char → Bool
  | [], [] => false
  | [], _ :: _ => true
  | _ :: _, [] => false
  | a :: as, b :: bs => if a.toNat < b.toNat then true else if a = b then ltChars as bs else false

/-- Entry of a directory by name. -/
def entryOf : List (String × FNode) → String → Option FNode
  | [], _ => none
  | (n, x) :: rest, c => if n = c then some x else entryOf rest c

/-- Replace the entry called `c`, or add it at its place in name order. -/
def insertEntry : List (String × FNode) → String → FNode → List (String × FNode)
  | [], c, v => [(c, v)]
  | (n, x) :: rest, c, v =>
    if n = c then (c, v) :: rest
    else if ltChars c.data n.data then (c, v) :: (n, x) :: rest
    else (n, x) :: insertEntry rest c v

/-- Remove the entry called `c`. -/
def eraseEntry : List (String × FNode) → String → List (String × FNode)
  | [], _ => []
  | (n, x) :: rest, c => if n = c then rest else (n, x) :: eraseEntry rest c

/-- The node at a path given by its elements. -/
def FNode.find : FNode → List String → Option FNode
  | n, [] => some n
  | .file _, _ :: _ => none
  | .dir es, c :: cs =>
    match entryOf es c with
    | none => none
    | some child => child.find cs

/-- Put `new` at the path; the parent directory has to exist. -/
def FNode.put : FNode → List String → FNode → Option FNode
  | _, [], new => some new
  | .file _, _ :: _, _ => none
  | .dir es, [c], new => some (.dir (insertEntry es c new))
  | .dir es, c :: c2 :: cs, new =>
    match entryOf es c with
    | none => none
    | some child =>
      match child.put (c2 :: cs) new with
      | none => none
      | some child2 => some (.dir (insertEntry es c child2))

/-- Create every missing directory on the path; fails on a regular file. -/
def FNode.mkdirAll : FNode → List String → Option FNode
  | .file _, _ => none
  | .dir es, [] => some (.dir es)
  | .dir es, c :: cs =>
    match ((entryOf es c).getD (.dir [])).mkdirAll cs with
    | none => none
    | some child => some (.dir (insertEntry es c child))

/-- Remove the node at the path with everything below it. -/
def FNode.removeAll : FNode → List String → FNode
  | n, [] => n
  | .file c, _ :: _ => .file c
  | .dir es, [c] => .dir (eraseEntry es c)
  | .dir es, c :: c2 :: cs =>
    match entryOf es c with
    | none => .dir es
    | some child => .dir (insertEntry es c (child.removeAll (c2 :: cs)))

/-- One visit of `filepath.Walk` / `filepath.WalkDir`. -/
structure Visit where
  path : String
  name : String
  node : FNode

mutual
/-- The visits of a walk rooted at `node`, in walk order: the node itself, then
the entries of a directory in name order, each with its own subtree. -/
def walkNode (path name : String) : FNode → List Visit
  | .file c => [⟨path, name, .file c⟩]
  | .dir es => ⟨path, name, .dir es⟩ :: walkEntries path es
/-- The visits below a directory. -/
def walkEntries (path : String) : List (String × FNode) → List Visit
  | [] => []
  | (n, child) :: rest => walkNode (filepathJoin [path, n]) n child ++ walkEntries path rest
end

/-! ## Environment and program state -/

/-- One entry of a zip archive. -/
structure ZipEntry where
  name : String
  isDir : Bool
  content : Bytes
deriving DecidableEq

/-- What the program takes from its libraries and surroundings.  Nothing in
here is changed by a run. -/
structure Env where
  /-- The working directory, as the elements of its absolute path. -/
  cwd : List String
  /-- Result of `os.TempDir()`. -/
  tempDir : String
  /-- The value `json.Decoder.Decode` reads from a byte stream; `none` is a
  syntax error. -/
  jsonDecode : Bytes → Option GoVal
  /-- Output of `json.Encoder.Encode`. -/
  jsonEncode : GoVal → Bytes
  /-- The entries `zip.NewReader` finds; `none` when the bytes are no zip. -/
  zipDecode : Bytes → Option (List ZipEntry)
  /-- The bytes `zip.Writer` produces for a list of entries. -/
  zipEncode : List ZipEntry → Bytes
  /-- Has `zip.Writer`, whose output is buffered, already put bytes into the
  output file when the given entries and the header of an entry called `name`
  have been written? -/
  zipFlushed : List ZipEntry → String → Bool
  /-- Response body of `http.Get`; `none` when the request fails. -/
  httpGet : String → Option Bytes
  /-- The size the system reports for a directory. -/
  dirSize : Nat
  /-- Result of `time.Now().Unix()`. -/
  now : Int
  /-- The date `time.Unix(t, 0).Format("2006-01-02")`. -/
  formatDate : Int → String

/-- Console output, one constructor per `fmt.Print*` call of the source. -/
inductive Msg where
  /-- Prints `This is Spinarak v0.0.7 by CompuCat and the 4TU Team.`, underlined. -/
  | banner
  /-- Prints `Couldn't load config.json; using default configuration.`. -/
  | configDefault
  /-- Prints `ERROR: output directory is not empty and is not a libget repo. Stopping.`. -/
  | notARepo
  /-- Prints `INFO: the output directory is already a libget repo! Updating the existing repo.`. -/
  | updatingExisting
  /-- Prints `%d detected packages: %v`. -/
  | detected (pkgDirs : List String)
  /-- Prints `ERROR: failed to build %s! Error message: %s`. -/
  | buildFailed (pkg : String)
  /-- Prints `%s hasn't changed, skipping.`. -/
  | unchanged (title : String)
  /-- Prints `ERROR: failed to create manifest for %s! Error message: %s`. -/
  | manifestFailed (pkg : String)
  /-- Prints `%d asset(s) detected`. -/
  | assetCount (n : Nat)
  /-- Prints `WARNING: no timestamp found!`. -/
  | noTimestamp
  /-- Prints `WARNING: using current timestamp.`. -/
  | usingCurrentTimestamp
  /-- Prints `WARNING: the changes field was deprecated from the start. Use changelog instead.`. -/
  | changesDeprecated
  /-- Prints `WARNING: no changelog found!`. -/
  | noChangelog
  /-- Prints `ERROR: failed to create info.json for %s! Error message: %s`. -/
  | infoJSONFailed (pkg : String)
  /-- Prints `info.json generated.`. -/
  | infoGenerated
  /-- Prints `Package is %d KiB large.`. -/
  | packageSize (kib : Nat)
  /-- Prints `ERROR: failed to create zip archive for %s! Error message: %s`. -/
  | zipFailed (pkg : String)
  /-- Prints `Package written to %s`. -/
  | packageWritten (path : String)
  /-- Prints `Zipped package is %d KiB large.`. -/
  | zippedSize (kib : Nat)
  /-- Prints `ERROR: failed to create repo.json! Error message: %s`. -/
  | repoJSONFailed
  /-- Prints `%s generated.`. -/
  | repoGenerated (path : String)
  /-- Prints `SUMMARY`, underlined. -/
  | summaryHeader
  /-- Prints `Built %d of %d packages.`. -/
  | built (n total : Int)
  /-- Prints `All done. Enjoy your new repo :)`. -/
  | allDone
  /-- Prints `- Asset is subasset`. -/
  | isSubasset
  /-- Prints `- Asset is local`. -/
  | isLocal
  /-- Prints `ERROR: Failed to create temporary file for asset %s: %s`. -/
  | tmpCreateFailed (url : String)
  /-- Prints `ERROR: Failed to open local asset %s: %s`. -/
  | openLocalFailed (url : String)
  /-- Prints `ERROR: Failed to copy local asset %s to temporary file: %s`. -/
  | copyLocalFailed (url : String)
  /-- Prints `- Downloading %s...`. -/
  | downloading (url : String)
  /-- Prints `ERROR: Failed to download asset %s: %s`. -/
  | downloadFailed (url : String)
  /-- Prints `ERROR: Failed to save downloaded asset %s: %s`. -/
  | saveFailed (url : String)
  /-- Prints `- Type is %s, moving to /%s`. -/
  | typeIs (ty dest : String)
  /-- Prints `ERROR: Failed to create destination file for asset %s: %s`. -/
  | destCreateFailed (url : String)
  /-- Prints `ERROR: Failed to copy asset content to destination %s: %s`. -/
  | destCopyFailed (path : String)
  /-- Prints `- Type is icon, moving to /icon.png`. -/
  | typeIcon
  /-- Prints `ERROR: Failed to create destination file for icon: %s`. -/
  | iconCreateFailed
  /-- Prints `ERROR: Failed to copy icon to output directory: %s`. -/
  | iconOutFailed
  /-- Prints `- Type is screenshot, moving to /screen.png`. -/
  | typeScreenshot
  /-- Prints `ERROR: Failed to create destination file for screenshot: %s`. -/
  | screenCreateFailed
  /-- Prints `ERROR: Failed to copy screenshot to output directory: %s`. -/
  | screenOutFailed
  /-- Prints `- Type is zip, has %d sub-asset(s)`. -/
  | typeZip (n : Nat)
  /-- Prints `ERROR: Failed to create temporary directory for zip extraction: %s`. -/
  | zipTmpFailed
  /-- Prints `ERROR: Failed to unzip asset: %s`. -/
  | unzipFailed
  /-- Prints `ERROR: Asset of unknown type detected. Skipping.`. -/
  | unknownType
  /-- Prints `Error calculating directory size: %s`. -/
  | dirSizeError
  /-- Prints `Error getting file size: %s`. -/
  | fileSizeError
  /-- Prints `WARNING: %s's binary path not specified in pkgbuild.json, and no binary found!`. -/
  | noBinary (title : String)
  /-- Prints `WARNING: binary path not specified in pkgbuild.json; guessing %s.`. -/
  | guessingBinary (path : String)
deriving DecidableEq

/-- An open file (`*os.File`) that is written to: the path it was opened on
and the offset of the next write. -/
structure Handle where
  path : String
  offset : Nat
deriving DecidableEq

/-- The mutable state of a run: the file system, the global `config` map, the
console, the manifest handle of the package being built (with the empty path
while none is open), the local `repoJSON["packages"]` of `main`, and the
random names the temp-file generator will hand out. -/
structure State where
  fs : FNode
  config : GoMap
  log : List Msg
  manifest : Handle
  repoPackages : List GoVal
  tmpNames : List String

/-- The initial value of the package variable `config`.  Both lists are Go
`[]string` values. -/
def defaultConfig : GoMap :=
  [("ignored_directories", .strSlice [".git"]),
   ("output_directory", .str "public"),
   ("valid_binary_extensions", .strSlice [".nro", ".elf", ".rpx", ".cia", ".3dsx", ".dol"])]

/-- Print one message. -/
def State.print (s : State) (m : Msg) : State :=
  { s with log := s.log ++ [m] }

/-- Replace the file system. -/
def State.withFs (s : State) (fs : FNode) : State :=
  { s with fs := fs }

/-- Result of a function that can panic and changes no state before it does. -/
inductive Res (α : Type) where
  | ok (a : α)
  | panic

/-- Did the function panic? -/
def Res.isPanic {α : Type} : Res α → Bool
  | .panic => true
  | .ok _ => false

/-- The value a function returned, if it did not panic. -/
def Res.value {α : Type} : Res α → Option α
  | .panic => none
  | .ok a => some a

/-- How a piece of the program ends: normally, in a Go panic (the process
dies), never (`hangs`, with the state in which the endless loop starts), or
because the model ran out of fuel. -/
inductive Outcome where
  | done (s : State)
  | panic (s : State)
  | hangs (s : State)
  | outOfFuel (s : State)

/-- The state at the end. -/
def Outcome.state : Outcome → State
  | .done s => s
  | .panic s => s
  | .hangs s => s
  | .outOfFuel s => s

/-- A deferred call: it runs whether the function returns or panics. -/
def Outcome.deferred (f : State → State) : Outcome → Outcome
  | .done s => .done (f s)
  | .panic s => .panic (f s)
  | .hangs s => .hangs s
  | .outOfFuel s => .outOfFuel (f s)

/-- Did the run panic? -/
def Outcome.isPanic : Outcome → Bool
  | .panic _ => true
  | _ => false

/-- Did the run end normally? -/
def Outcome.isDone : Outcome → Bool
  | .done _ => true
  | _ => false

/-! ## Package `os` -/

/-- The elements of the absolute path a path string stands for. -/
def resolve (env : Env) (p : String) : List String :=
  if isRooted p then cleanElems true [] (pathElems p)
  else cleanElems true env.cwd.reverse (pathElems p)

/-- Go `os.Stat`: the node, or `none` for an error. -/
def osStat (env : Env) (fs : FNode) (p : String) : Option FNode :=
  if p = "" then none else fs.find (resolve env p)

/-- Go `os.Create`: an empty regular file at `p` (truncating an old one). -/
def osCreate (env : Env) (fs : FNode) (p : String) : Option FNode :=
  match osStat env fs p with
  | some (.dir _) => none
  | some (.file _) => fs.put (resolve env p) (.file [])
  | none => if p = "" then none else fs.put (resolve env p) (.file [])

/-- Writing `content` through a handle that `os.Create` has just opened. -/
def fsWrite (env : Env) (fs : FNode) (p : String) (content : Bytes) : FNode :=
  (fs.put (resolve env p) (.file content)).getD fs

/-- The content of a file after `text` has been written at `offset`: a gap
between the end of the file and the offset is filled with zero bytes. -/
def spliceAt (content : Bytes) (offset : Nat) (text : Bytes) : Bytes :=
  content.take offset ++ List.replicate (offset - content.length) 0 ++ text ++
    content.drop (offset + text.length)

/-- Go `File.WriteString` on an open handle: the bytes go into the file at the
offset of the handle, which moves on.  When the file is no longer at its path
the bytes are not visible in the file system. -/
def handleWrite (env : Env) (fs : FNode) (h : Handle) (text : Bytes) : FNode × Handle :=
  match osStat env fs h.path with
  | some (.file content) =>
    (fsWrite env fs h.path (spliceAt content h.offset text), ⟨h.path, h.offset + text.length⟩)
  | _ => (fs, ⟨h.path, h.offset + text.length⟩)

/-- Go `os.MkdirAll`; every call in the source drops the error. -/
def osMkdirAll (env : Env) (fs : FNode) (p : String) : FNode :=
  (fs.mkdirAll (resolve env p)).getD fs

/-- Go `os.Mkdir`. -/
def osMkdir (env : Env) (fs : FNode) (p : String) : Option FNode :=
  match osStat env fs p with
  | some _ => none
  | none => if p = "" then none else fs.put (resolve env p) (.dir [])

/-- Go `os.RemoveAll`. -/
def osRemoveAll (env : Env) (fs : FNode) (p : String) : FNode :=
  if p = "" then fs else fs.removeAll (resolve env p)

/-- Go `os.ReadDir`. -/
def osReadDir (env : Env) (fs : FNode) (p : String) : Option (List (String × FNode)) :=
  match osStat env fs p with
  | some (.dir es) => some es
  | _ => none

/-- The content of a regular file, when `p` names one. -/
def readFile (env : Env) (fs : FNode) (p : String) : Option Bytes :=
  match osStat env fs p with
  | some (.file content) => some content
  | _ => none

/-- The name `os.CreateTemp` / `os.MkdirTemp` tries for a random string `r`. -/
def tempPath (env : Env) (pre r : String) : String :=
  if stringsHasSuffix env.tempDir "/" then env.tempDir ++ pre ++ r
  else env.tempDir ++ "/" ++ pre ++ r

/-- Go `os.CreateTemp("", pre)`: names that exist are skipped. -/
def osCreateTemp (env : Env) (fs : FNode) (pre : String) :
    List String → Option (String × FNode × List String)
  | [] => none
  | r :: rest =>
    match osStat env fs (tempPath env pre r) with
    | some _ => osCreateTemp env fs pre rest
    | none =>
      match osCreate env fs (tempPath env pre r) with
      | none => none
      | some fs1 => some (tempPath env pre r, fs1, rest)

/-- Go `os.MkdirTemp("", pre)`. -/
def osMkdirTemp (env : Env) (fs : FNode) (pre : String) :
    List String → Option (String × FNode × List String)
  | [] => none
  | r :: rest =>
    match osStat env fs (tempPath env pre r) with
    | some _ => osMkdirTemp env fs pre rest
    | none =>
      match osMkdir env fs (tempPath env pre r) with
      | none => none
      | some fs1 => some (tempPath env pre r, fs1, rest)

/-- The visits of `filepath.Walk(root, fn)` / `filepath.WalkDir(root, fn)`;
`none` when the root cannot be examined, in which case `fn` is called once with
an error. -/
def walk (env : Env) (fs : FNode) (root : String) : Option (List Visit) :=
  match osStat env fs root with
  | none => none
  | some n => some (walkNode root (filepathBase root) n)

/-! ## The program -/

/-- Go `copy(src, dst)` of the source; `true` stands for a nil error.  The
destination must not exist. -/
def copy (env : Env) (src dst : String) (fs : FNode) : Bool × FNode :=
  match osStat env fs src with
  | none => (false, fs)
  | some (.dir _) => (false, fs)
  | some (.file content) =>
    match osStat env fs dst with
    | some _ => (false, fs)
    | none =>
      match osCreate env fs dst with
      | none => (false, fs)
      | some fs1 => (true, fsWrite env fs1 dst content)

/-- Go `mergeMaps`: the bindings of `map1`, overridden by those of `map2`. -/
def mergeMaps (map1 map2 : GoMap) : GoMap :=
  map2.foldr (fun kv m => GoMap.set m kv.1 kv.2) map1

/-- Go `loadConfig`: decode `config.json` into the existing `config` map.
Keys of the file replace the defaults, other keys stay; a JSON `null` sets the
map to nil.  `true` stands for a nil error. -/
def loadConfig (env : Env) (s : State) : Bool × State :=
  match osStat env s.fs "config.json" with
  | some (.file content) =>
    match env.jsonDecode content with
    | some (.obj kvs) => (true, { s with config := mergeMaps s.config kvs })
    | some .null => (true, { s with config := [] })
    | _ => (false, s)
  | _ => (false, s)

/-- Go `loadJSONFile`; `none` is a non-nil error.  A JSON `null` gives a nil
map without an error. -/
def loadJSONFile (env : Env) (fs : FNode) (filePath : String) : Option GoMap :=
  match osStat env fs filePath with
  | some (.file content) =>
    match env.jsonDecode content with
    | some (.obj kvs) => some kvs
    | some .null => some []
    | _ => none
  | _ => none

/-- The loop of `getPkgDirs` over the directory entries.  The assertion
`config["ignored_directories"].([]interface{})` is evaluated for every entry
that is a directory. -/
def getPkgDirsLoop (env : Env) (fs : FNode) (config : GoMap) :
    List (String × FNode) → Res (List String)
  | [] => .ok []
  | (name, node) :: rest =>
    if node.isDir then
      match castArr (config.get "ignored_directories") with
      | none => .panic
      | some ignoredDirs =>
        match getPkgDirsLoop env fs config rest with
        | .panic => .panic
        | .ok dirs =>
          if ignoredDirs.any (eqStrVal name) then .ok dirs
          else if (osStat env fs (filepathJoin [name, "pkgbuild.json"])).isSome then
            .ok (name :: dirs)
          else .ok dirs
    else getPkgDirsLoop env fs config rest

/-- Go `getPkgDirs`. -/
def getPkgDirs (env : Env) (s : State) : Res (List String) :=
  match osReadDir env s.fs "." with
  | none => .ok []
  | some dirEntries => getPkgDirsLoop env s.fs s.config dirEntries

/-- The loop of `getPrevPkgInfo`: the first record whose name is `pkgName`. -/
def findPrevPkg (pkgName : String) : List GoVal → Res (Option GoMap)
  | [] => .ok none
  | pkgInfo :: rest =>
    match castObj pkgInfo with
    | none => .panic
    | some m =>
      match castStr (m.get "name") with
      | none => .panic
      | some name => if name = pkgName then .ok (some m) else findPrevPkg pkgName rest

/-- Go `getPrevPkgInfo`; `ok none` is the nil map. -/
def getPrevPkgInfo (pkgName : String) (previousRepoJSON : GoMap) : Res (Option GoMap) :=
  match castArr (previousRepoJSON.get "packages") with
  | none => .panic
  | some packages => findPrevPkg pkgName packages

/-- Go `unzip`, entry by entry; `true` stands for a nil error. -/
def unzipEntries (env : Env) (destDir : String) : List ZipEntry → FNode → Bool × FNode
  | [], fs => (true, fs)
  | e :: es, fs =>
    if e.isDir then unzipEntries env destDir es (osMkdirAll env fs (filepathJoin [destDir, e.name]))
    else
      match osCreate env fs (filepathJoin [destDir, e.name]) with
      | none => (false, fs)
      | some fs1 =>
        unzipEntries env destDir es (fsWrite env fs1 (filepathJoin [destDir, e.name]) e.content)

/-- Go `unzip(src, destDir)`, `src` being the path of the file behind the
handle; the archive is decoded as it stands when the reader is opened. -/
def unzip (env : Env) (src : String) (destDir : String) (fs : FNode) : Bool × FNode :=
  match readFile env fs src with
  | none => (false, fs)
  | some file =>
    match env.zipDecode file with
    | none => (false, fs)
    | some entries => unzipEntries env destDir entries fs

/-- The callback of `getDirSize` folded over the visits. -/
def sumSizes (dirSize : Nat) : List Visit → Nat
  | [] => 0
  | v :: vs =>
    if v.node.isDir then sumSizes dirSize vs else v.node.size dirSize + sumSizes dirSize vs

/-- Go `getDirSize`. -/
def getDirSize (env : Env) (directory : String) (s : State) : Nat × State :=
  match walk env s.fs directory with
  | none => (0, s.print .dirSizeError)
  | some visits => (sumSizes env.dirSize visits, s)

/-- Go `getFileSize`. -/
def getFileSize (env : Env) (filePath : String) (s : State) : Nat × State :=
  match osStat env s.fs filePath with
  | none => (0, s.print .fileSizeError)
  | some n => (n.size env.dirSize, s)

/-- The inner loop of `getBinaryPath` over the configured extensions: does the
file name end in one of them?  The loop stops at the first match. -/
def matchExt (name : String) : List GoVal → Res Bool
  | [] => .ok false
  | ext :: rest =>
    match castStr ext with
    | none => .panic
    | some e => if stringsHasSuffix name e then .ok true else matchExt name rest

/-- The callback of `getBinaryPath` folded over the visits.  A match assigns
`binPath` and returns nil, so the walk goes on. -/
def binaryWalk (config : GoMap) : List Visit → String → Res String
  | [], binPath => .ok binPath
  | v :: vs, binPath =>
    if v.node.isDir then binaryWalk config vs binPath
    else
      match castArr (config.get "valid_binary_extensions") with
      | none => .panic
      | some exts =>
        match matchExt v.name exts with
        | .panic => .panic
        | .ok true => binaryWalk config vs v.path
        | .ok false => binaryWalk config vs binPath

/-- Go `getBinaryPath`. -/
def getBinaryPath (env : Env) (info : GoMap) (pkg : String) (s : State) :
    Res (String × State) :=
  match info.find "binary" with
  | some bin =>
    match castStr bin with
    | none => .panic
    | some b => .ok (b, s)
  | none =>
    match castStr (info.get "category") with
    | none => .panic
    | some category =>
      if category = "theme" then .ok ("none", s)
      else
        match binaryWalk s.config ((walk env s.fs pkg).getD []) "" with
        | .panic => .panic
        | .ok binPath =>
          if binPath = "" then
            match castStr (info.get "title") with
            | none => .panic
            | some title => .ok (binPath, s.print (.noBinary title))
          else .ok (binPath, s.print (.guessingBinary binPath))

/-- How `zipDirectory` ends: it returns (`true` stands for a nil error), or it
never does. -/
inductive ZipOutcome where
  | returned (ok : Bool) (fs : FNode)
  | hangs

/-- The error flag (`true` for nil) and the file system when the call
returns. -/
def ZipOutcome.result : ZipOutcome → Option (Bool × FNode)
  | .returned ok fs => some (ok, fs)
  | .hangs => none

/-- The callback of `zipDirectory` folded over the visits, `written` being the
entries written so far: one archive entry per visited non-directory.  When the
visited file is the archive itself, `io.Copy` reads what `zip.Writer` has put
into the file and writes it back into the archive: if the file is still empty
the entry is empty and the walk goes on, otherwise the copy feeds itself and
never ends (`none`). -/
def zipWalk (env : Env) (sourceDir zipFileName : String) :
    List Visit → List ZipEntry → Option (List ZipEntry)
  | [], written => some written
  | v :: vs, written =>
    match v.node with
    | .dir _ => zipWalk env sourceDir zipFileName vs written
    | .file content =>
      if resolve env v.path = resolve env zipFileName ∧
          env.zipFlushed written (filepathJoin [sourceDir, stringsTrimPrefix v.path sourceDir])
            = true then none
      else
        zipWalk env sourceDir zipFileName vs (written ++
          [⟨filepathJoin [sourceDir, stringsTrimPrefix v.path sourceDir], false, content⟩])

/-- Go `zipDirectory`.  The output file is created first, the walk runs on the
file system that contains it, and the deferred `zipWriter.Close()` completes
the archive on every path that returns. -/
def zipDirectory (env : Env) (sourceDir zipFileName : String) (fs : FNode) : ZipOutcome :=
  match osCreate env fs zipFileName with
  | none => .returned false fs
  | some fs1 =>
    match walk env fs1 sourceDir with
    | none => .returned false (fsWrite env fs1 zipFileName (env.zipEncode []))
    | some visits =>
      match zipWalk env sourceDir zipFileName visits [] with
      | none => .hangs
      | some entries => .returned true (fsWrite env fs1 zipFileName (env.zipEncode entries))

/-! ### Assets -/

/-- Go `manifest.WriteString(text)`. -/
def State.writeManifest (env : Env) (s : State) (text : String) : State :=
  { s with fs := (handleWrite env s.fs s.manifest (utf8 text)).1,
           manifest := (handleWrite env s.fs s.manifest (utf8 text)).2 }

/-- Go `io.Copy(dst, file)` for a destination just created and the temp file
at path `file`, opened for reading at offset 0: what the temp file holds at
that moment goes to `dst`. -/
def copyFrom (env : Env) (fs : FNode) (file dst : String) : FNode :=
  match readFile env fs file with
  | some content => fsWrite env fs dst content
  | none => fs

/-- Branch `update` / `get` / `local` / `extract` of `handleAssetType`.  The
manifest line is written, through the manifest handle, before the destination
file is created.  `io.Copy` from the temp file cannot fail in this file
system, so its error branch is absent. -/
def handleInstall (env : Env) (pkg : String) (file : String) (asset : GoMap) (ty : String)
    (s : State) : Outcome :=
  match castStr (asset.get "dest") with
  | none => .panic s
  | some dest =>
    let s1 := s.print (.typeIs ty dest)
    let s2 := s1.writeManifest env (upperFirst ty ++ ": " ++ dest ++ "\n")
    let s3 := s2.withFs (osMkdirAll env s2.fs (filepathDir (filepathJoin [pkg, dest])))
    match osCreate env s3.fs (filepathJoin [pkg, dest]) with
    | none =>
      match castStr (asset.get "url") with
      | none => .panic s3
      | some url => .done (s3.print (.destCreateFailed url))
    | some fs1 => .done (s3.withFs (copyFrom env fs1 file (filepathJoin [pkg, dest])))

/-- Branches `icon` and `screenshot` of `handleAssetType`, which differ in the
file name and the messages only. -/
def handlePicture (env : Env) (pkg : String) (file : String) (fileName : String)
    (start createFailed outFailed : Msg) (s : State) : Outcome :=
  let s1 := s.print start
  match castStr (s1.config.get "output_directory") with
  | none => .panic s1
  | some outDir =>
    match osCreate env s1.fs (filepathJoin [pkg, fileName]) with
    | none => .done (s1.print createFailed)
    | some fs1 =>
      match copy env (filepathJoin [pkg, fileName])
          (filepathJoin [outDir, "packages", pkg, fileName])
          (osMkdirAll env (copyFrom env fs1 file (filepathJoin [pkg, fileName]))
            (filepathDir (filepathJoin [outDir, "packages", pkg, fileName]))) with
      | (true, fs2) => .done (s1.withFs fs2)
      | (false, fs2) => .done ((s1.withFs fs2).print outFailed)

/-- The loop over `asset["zip"]` in `handleAssetType`: the `url` of every
sub-asset becomes `filepath.Join(tmpDir, path)`, then `handleAsset` (here
`recur`) is called on it. -/
def handleSubAssets (recur : GoMap → State → Outcome) (tmpDir : String) :
    List GoVal → State → Outcome
  | [], s => .done s
  | subAsset :: rest, s =>
    match castObj subAsset with
    | none => .panic s
    | some subAssetInfo =>
      match castStr (subAssetInfo.get "path") with
      | none => .panic s
      | some path =>
        match recur (subAssetInfo.set "url" (.str (filepathJoin [tmpDir, path]))) s with
        | .done s1 => handleSubAssets recur tmpDir rest s1
        | other => other

/-- Branch `zip` of `handleAssetType`.  `os.RemoveAll(tmpDir)` is deferred
right after the scratch directory is made. -/
def handleZip (recur : GoMap → State → Outcome) (env : Env) (file : String)
    (asset : GoMap) (s : State) : Outcome :=
  match castArr (asset.get "zip") with
  | none => .panic s
  | some subAssets =>
    let s1 := s.print (.typeZip subAssets.length)
    match osMkdirTemp env s1.fs "zip_extract_" s1.tmpNames with
    | none => .done (s1.print .zipTmpFailed)
    | some (tmpDir, fs1, names) =>
      Outcome.deferred (fun st => st.withFs (osRemoveAll env st.fs tmpDir))
        (match unzip env file tmpDir fs1 with
         | (false, fs2) => .done ({ s1 with fs := fs2, tmpNames := names }.print .unzipFailed)
         | (true, fs2) =>
           handleSubAssets recur tmpDir subAssets { s1 with fs := fs2, tmpNames := names })

/-- Go `handleAssetType`; `file` is the path of the temp file behind the
handle, `recur` the recursive call of `handleAsset`. -/
def handleAssetType (recur : GoMap → State → Outcome) (env : Env) (pkg : String)
    (file : String) (asset : GoMap) (s : State) : Outcome :=
  match castStr (asset.get "type") with
  | none => .panic s
  | some ty =>
    if ty = "update" ∨ ty = "get" ∨ ty = "local" ∨ ty = "extract" then
      handleInstall env pkg file asset ty s
    else if ty = "icon" then
      handlePicture env pkg file "icon.png" .typeIcon .iconCreateFailed .iconOutFailed s
    else if ty = "screenshot" then
      handlePicture env pkg file "screen.png" .typeScreenshot .screenCreateFailed
        .screenOutFailed s
    else if ty = "zip" then handleZip recur env file asset s
    else .done (s.print .unknownType)

/-- The condition `subAsset, ok := asset["subAsset"]; ok && subAsset.(bool)`. -/
def subAssetFlag (asset : GoMap) : Res Bool :=
  match asset.find "subAsset" with
  | none => .ok false
  | some v =>
    match castBool v with
    | none => .panic
    | some b => .ok b

/-- Body of Go `handleAsset`, `dispatch` being `handleAssetType`.  `os.Open`
after a successful `os.Stat` and saving a response body cannot fail in this
file system; copying from a directory does. -/
def handleAssetWith (dispatch : String → GoMap → State → Outcome) (env : Env)
    (pkg : String) (asset : GoMap) (s : State) : Outcome :=
  match subAssetFlag asset with
  | .panic => .panic s
  | .ok true => .done (s.print .isSubasset)
  | .ok false =>
    match castStr (asset.get "url") with
    | none => .panic s
    | some url =>
      match osStat env s.fs (filepathJoin [pkg, url]) with
      | some node =>
        let s1 := s.print .isLocal
        match osCreateTemp env s1.fs "asset_" s1.tmpNames with
        | none => .done (s1.print (.tmpCreateFailed url))
        | some (tmp, fs1, names) =>
          match node with
          | .dir _ => .done ({ s1 with fs := fs1, tmpNames := names }.print (.copyLocalFailed url))
          | .file content =>
            dispatch tmp asset { s1 with fs := fsWrite env fs1 tmp content, tmpNames := names }
      | none =>
        let s1 := s.print (.downloading url)
        match env.httpGet url with
        | none => .done (s1.print (.downloadFailed url))
        | some body =>
          match osCreateTemp env s1.fs "asset_" s1.tmpNames with
          | none => .done (s1.print (.tmpCreateFailed url))
          | some (tmp, fs1, names) =>
            dispatch tmp asset { s1 with fs := fsWrite env fs1 tmp body, tmpNames := names }

/-- Go `handleAsset` with a bound on the nesting of archives. -/
def handleAssetFuel (env : Env) (pkg : String) : Nat → GoMap → State → Outcome
  | 0, _, s => .outOfFuel s
  | fuel + 1, asset, s =>
    handleAssetWith (handleAssetType (handleAssetFuel env pkg fuel) env pkg) env pkg asset s

/-- Go `handleAsset`. -/
def handleAsset (env : Env) (pkg : String) (asset : GoMap) (s : State) : Outcome :=
  handleAssetFuel env pkg (depthKVs asset + 1) asset s

/-- The loop `for _, asset := range pkgBuild["assets"]` of `main`. -/
def handleAssets (env : Env) (pkg : String) : List GoVal → State → Outcome
  | [], s => .done s
  | asset :: rest, s =>
    match castObj asset with
    | none => .panic s
    | some a =>
      match handleAsset env pkg a s with
      | .done s1 => handleAssets env pkg rest s1
      | other => other

/-! ### `main` -/

/-- Lines 117-125 of `main`: `ok (some title)` when the package is skipped
(the title is printed), `ok none` when it is built. -/
def skipGuard (updatingRepo : Bool) (previousRepoJSON pkgBuild : GoMap) :
    Res (Option String) :=
  if updatingRepo then
    match castStr (pkgBuild.get "package") with
    | none => .panic
    | some name =>
      match getPrevPkgInfo name previousRepoJSON with
      | .panic => .panic
      | .ok none => .ok none
      | .ok (some prevPkgInfo) =>
        match castStr (prevPkgInfo.get "version") with
        | none => .panic
        | some prevVersion =>
          match castObj (pkgBuild.get "info") with
          | none => .panic
          | some info =>
            match castStr (info.get "version") with
            | none => .panic
            | some version =>
              if prevVersion = version then
                match castStr (info.get "title") with
                | none => .panic
                | some title => .ok (some title)
              else .ok none
  else .ok none

/-- The entries `k: info[k].(string)` for the keys `ks`, in order; `none` is a
panic of one of the type assertions. -/
def strFields (info : GoMap) : List String → Option GoMap
  | [] => some []
  | k :: ks =>
    match castStr (info.get k) with
    | none => none
    | some v =>
      match strFields info ks with
      | none => none
      | some fields => some ((k, .str v) :: fields)

/-- Lines 145-156 of `main`: the map literal `pkgInfo` with its entries in
source order; `none` is a panic of one of its type assertions. -/
def pkgInfoOf (env : Env) (pkgBuild : GoMap) (pkgInfoTimestamp : GoVal) : Option GoMap :=
  match castObj (pkgBuild.get "info") with
  | none => none
  | some info =>
    match strFields info ["category"], castStr (pkgBuild.get "package"),
      strFields info ["license", "title", "url", "author", "version", "details", "description"],
      castInt64 pkgInfoTimestamp with
    | some category, some name, some fields, some t =>
      some (category ++ [("name", .str name)] ++ fields ++
        [("updated", .str (env.formatDate t))])
    | _, _, _, _ => none

/-- Is the interface value nil? -/
def GoVal.isNil : GoVal → Bool
  | .null => true
  | _ => false

/-- Lines 179-204 of `main`: sizes, zip archive, index record. -/
def archivePackage (env : Env) (pkg : String) (pkgBuild pkgInfo : GoMap) (s : State) :
    Outcome :=
  let s1 := (getDirSize env pkg s).2.print (.packageSize ((getDirSize env pkg s).1 / 1024))
  match castStr (s1.config.get "output_directory") with
  | none => .panic s1
  | some outDir =>
    let outputZipPath := filepathJoin [outDir, "zips", pkg ++ ".zip"]
    let s2 :=
      if (osStat env s1.fs outputZipPath).isSome then s1
      else s1.withFs (osMkdirAll env s1.fs (filepathDir outputZipPath))
    match zipDirectory env pkg outputZipPath s2.fs with
    | .hangs => .hangs s2
    | .returned false fs3 => .done ((s2.withFs fs3).print (.zipFailed pkg))
    | .returned true fs3 =>
      let s3 := (s2.withFs fs3).print (.packageWritten outputZipPath)
      let s4 := (getFileSize env outputZipPath s3).2.print
        (.zippedSize ((getFileSize env outputZipPath s3).1 / 1024))
      let s5 := (getDirSize env pkg s4).2
      let s6 := (getFileSize env outputZipPath s5).2
      let repoExtendedInfo : GoMap :=
        [("extracted", .int64 ((getDirSize env pkg s4).1 / 1024 : Nat)),
         ("filesize", .int64 ((getFileSize env outputZipPath s5).1 / 1024 : Nat)),
         ("web_dls", .int (-1)), ("app_dls", .int (-1))]
      match castObj (pkgBuild.get "info") with
      | none => .panic s6
      | some info =>
        match getBinaryPath env info pkg s6 with
        | .panic => .panic s6
        | .ok (binaryPath, s7) =>
          .done { s7 with repoPackages := s7.repoPackages ++
            [.obj (mergeMaps pkgInfo (GoMap.set repoExtendedInfo "binary" (.str binaryPath)))] }

/-- Lines 138-178 of `main`: timestamp, `pkgInfo`, changelog, `info.json`.
Closing the manifest changes nothing in the file system. -/
def describePackage (env : Env) (pkg : String) (pkgBuild : GoMap) (s : State) : Outcome :=
  match castObj (pkgBuild.get "info") with
  | none => .panic s
  | some info =>
    let s1 :=
      if (info.get "timestamp").isNil then (s.print .noTimestamp).print .usingCurrentTimestamp
      else s
    let pkgInfoTimestamp :=
      if (info.get "timestamp").isNil then GoVal.int64 env.now else info.get "timestamp"
    match pkgInfoOf env pkgBuild pkgInfoTimestamp with
    | none => .panic s1
    | some pkgInfo0 =>
      let pkgInfo :=
        if (pkgBuild.get "changes").isNil then GoMap.set pkgInfo0 "changelog" (pkgBuild.get "changelog")
        else GoMap.set pkgInfo0 "changelog" (pkgBuild.get "changes")
      let s2 :=
        if (pkgBuild.get "changes").isNil then s1.print .noChangelog
        else s1.print .changesDeprecated
      match osCreate env s2.fs (filepathJoin [pkg, "info.json"]) with
      | none => .done (s2.print (.infoJSONFailed pkg))
      | some fs1 =>
        archivePackage env pkg pkgBuild pkgInfo
          ((s2.withFs (fsWrite env fs1 (filepathJoin [pkg, "info.json"])
            (env.jsonEncode (.obj pkgInfo)))).print .infoGenerated)

/-- Line 127 of `main`: `os.Create` of the manifest gives a handle at
offset 0. -/
def State.openManifest (s : State) (fs1 : FNode) (path : String) : State :=
  { s with fs := fs1, manifest := ⟨path, 0⟩ }

/-- Lines 127-204 of `main`: the build of one package whose descriptor has
been loaded and that is not skipped. -/
def buildPackage (env : Env) (pkg : String) (pkgBuild : GoMap) (s : State) : Outcome :=
  match osCreate env s.fs (filepathJoin [pkg, "manifest.install"]) with
  | none => .done (s.print (.manifestFailed pkg))
  | some fs1 =>
    match castArr (pkgBuild.get "assets") with
    | none => .panic (s.openManifest fs1 (filepathJoin [pkg, "manifest.install"]))
    | some assets =>
      match handleAssets env pkg assets
          ((s.openManifest fs1 (filepathJoin [pkg, "manifest.install"])).print
            (.assetCount assets.length)) with
      | .done s1 => describePackage env pkg pkgBuild s1
      | other => other

/-- One iteration of the package loop of `main` (lines 109-205). -/
def packageStep (env : Env) (updatingRepo : Bool) (previousRepoJSON : GoMap) (pkg : String)
    (s : State) : Outcome :=
  match loadJSONFile env s.fs (filepathJoin [pkg, "pkgbuild.json"]) with
  | none => .done (s.print (.buildFailed pkg))
  | some pkgBuild =>
    match skipGuard updatingRepo previousRepoJSON pkgBuild with
    | .panic => .panic s
    | .ok (some title) => .done (s.print (.unchanged title))
    | .ok none => buildPackage env pkg pkgBuild s

/-- The package loop of `main`. -/
def buildAll (env : Env) (updatingRepo : Bool) (previousRepoJSON : GoMap) :
    List String → State → Outcome
  | [], s => .done s
  | pkg :: rest, s =>
    match packageStep env updatingRepo previousRepoJSON pkg s with
    | .done s1 => buildAll env updatingRepo previousRepoJSON rest s1
    | other => other

/-- Lines 99-219 of `main`: detect the packages, build them, write
`repo.json`, print the summary. -/
def buildRepo (env : Env) (updatingRepo : Bool) (previousRepoJSON : GoMap) (s : State) :
    Outcome :=
  match getPkgDirs env s with
  | .panic => .panic s
  | .ok pkgDirs =>
    match buildAll env updatingRepo previousRepoJSON pkgDirs
        { s.print (.detected pkgDirs) with repoPackages := [] } with
    | .done s1 =>
      match castStr (s1.config.get "output_directory") with
      | none => .panic s1
      | some outDir =>
        match osCreate env s1.fs (filepathJoin [outDir, "repo.json"]) with
        | none => .done (s1.print .repoJSONFailed)
        | some fs1 =>
          .done (((((s1.withFs (fsWrite env fs1 (filepathJoin [outDir, "repo.json"])
              (env.jsonEncode (.obj [("packages", .arr s1.repoPackages)])))).print
            (.repoGenerated (filepathJoin [outDir, "repo.json"]))).print .summaryHeader).print
            (.built ((pkgDirs.length : Int) - s1.repoPackages.length) pkgDirs.length)).print
            .allDone)
    | other => other

/-- Go `main`. -/
def main (env : Env) (s0 : State) : Outcome :=
  let s1 := s0.print .banner
  let s2 := if (loadConfig env s1).1 then (loadConfig env s1).2
    else (loadConfig env s1).2.print .configDefault
  match castStr (s2.config.get "output_directory") with
  | none => .panic s2
  | some outDir =>
    match osStat env s2.fs outDir with
    | some _ =>
      if ((osReadDir env s2.fs outDir).getD []).length = 0 then buildRepo env false [] s2
      else
        match loadJSONFile env s2.fs (filepathJoin [outDir, "repo.json"]) with
        | none => .done (s2.print .notARepo)
        | some previousRepoJSON =>
          buildRepo env true previousRepoJSON (s2.print .updatingExisting)
    | none => buildRepo env false [] (s2.withFs (osMkdirAll env s2.fs outDir))


/-! ## Definitions that follow the wording of the specification -/

/-- A record of a repository index as the data model has it: an object with a
string `name` and a string `version`. -/
def isIndexRecord : GoVal → Bool
  | .obj m => (castStr (GoMap.get m "name")).isSome && (castStr (GoMap.get m "version")).isSome
  | _ => false

/-- Is `r` a record whose name is `name`? -/
def recordNamed (name : String) : GoVal → Bool
  | .obj m => eqStrVal name (GoMap.get m "name")
  | _ => false

/-- The record the guard compares with, in the words of the specification: the
first record in index order whose name equals the candidate's package name. -/
def firstNamed (name : String) (records : List GoVal) : Option GoVal :=
  records.find? (recordNamed name)


/-- The condition of the Incremental Build Guard in the words of the
specification: a previous index was loaded, it has a record with the
candidate's name, and the first such record carries exactly the candidate's
version string. -/
def SkipCondition (updatingRepo : Bool) (records : List GoVal) (name version : String) :
    Prop :=
  updatingRepo = true ∧
    ∃ prevPkgInfo : GoMap, firstNamed name records = some (.obj prevPkgInfo) ∧
      prevPkgInfo.get "version" = .str version

/-- An object with a string `name`. -/
def hasName : GoVal → Bool
  | .obj m => (castStr (GoMap.get m "name")).isSome
  | _ => false

/-- The records that the lookup of `name` reads are typed as in the data
model: every record before the first one named `name` is an object with a
string `name`, and that first one is a record with a string `name` and
`version`.  Records after it are not read and may be anything. -/
def typedUpToMatch (name : String) : List GoVal → Bool
  | [] => true
  | r :: rest =>
    if recordNamed name r then isIndexRecord r else hasName r && typedUpToMatch name rest

/-- What the guard reads when a previous index was loaded, typed as in the
data model: the index has an array `packages` whose records are typed as far
as the lookup reads them, and the descriptor has a string `package`,
`info.version` and `info.title`. -/
def GuardTyped (previousRepoJSON pkgBuild : GoMap) (records : List GoVal)
    (name version title : String) : Prop :=
  previousRepoJSON.get "packages" = .arr records ∧
  typedUpToMatch name records = true ∧
  pkgBuild.get "package" = .str name ∧
  ∃ info : GoMap, pkgBuild.get "info" = .obj info ∧
    info.get "version" = .str version ∧ info.get "title" = .str title

/-- The install assets among a list of asset values, in list order, `sub`
giving those of each asset. -/
def subOrder (sub : GoMap → List (String × String)) : List GoVal → List (String × String)
  | [] => []
  | a :: rest =>
    (match castObj a with
     | some m => sub m
     | none => []) ++ subOrder sub rest

/-- The install assets of one asset that is not a marker: the asset itself
when its type is `update`, `get`, `local` or `extract`; those of its
sub-assets, in order, when it is an archive; none otherwise. -/
def typeOrder (sub : GoMap → List (String × String)) (asset : GoMap) :
    List (String × String) :=
  match castStr (asset.get "type") with
  | none => []
  | some ty =>
    if ty = "update" ∨ ty = "get" ∨ ty = "local" ∨ ty = "extract" then
      match castStr (asset.get "dest") with
      | none => []
      | some dest => [(ty, dest)]
    else if ty = "zip" then
      match castArr (asset.get "zip") with
      | none => []
      | some subAssets => subOrder sub subAssets
    else []

/-- The install assets of one asset: none for a marker (flag `subAsset`). -/
def assetOrder (sub : GoMap → List (String × String)) (asset : GoMap) :
    List (String × String) :=
  match subAssetFlag asset with
  | .ok true => []
  | _ => typeOrder sub asset

/-- The install assets of an asset tree in depth-first order, for archives
nested less than `fuel` deep. -/
def installOrderFuel : Nat → GoMap → List (String × String)
  | 0, _ => []
  | fuel + 1, asset => assetOrder (installOrderFuel fuel) asset

/-- The install assets of a package in depth-first traversal order of its
asset tree: the sub-assets of an archive stand where the archive stands in its
list. -/
def installOrder (assets : List GoVal) : List (String × String) :=
  subOrder (fun a => installOrderFuel (depthKVs a + 1) a) assets

/-- The manifest handle of `s` stands at the end of its file, which holds
`c`. -/
def Opened (env : Env) (s : State) (c : Bytes) : Prop :=
  readFile env s.fs s.manifest.path = some c ∧ s.manifest.offset = c.length

/-- The entries `zipDirectory` writes for a walk that never meets the archive
itself: one per visited non-directory. -/
def zipEntriesOf (sourceDir : String) : List Visit → List ZipEntry
  | [] => []
  | v :: vs =>
    match v.node with
    | .dir _ => zipEntriesOf sourceDir vs
    | .file content =>
      ⟨filepathJoin [sourceDir, stringsTrimPrefix v.path sourceDir], false, content⟩
        :: zipEntriesOf sourceDir vs

/-- A file name: not empty, not `.` or `..`, without a slash. -/
def validName (n : String) : Bool :=
  decide (n ≠ "" ∧ n ≠ "." ∧ n ≠ ".." ∧ '/' ∉ n.data)

mutual
/-- Every name in the tree is a file name. -/
def FNode.validNames : FNode → Bool
  | .file _ => true
  | .dir es => validEntries es
/-- Every name below a directory is a file name. -/
def validEntries : List (String × FNode) → Bool
  | [] => true
  | (n, child) :: rest => validName n && child.validNames && validEntries rest
end

mutual
/-- The regular files of a tree in walk order, each with the elements of its
path relative to the root of the tree (prefixed by `rel`) and its bytes. -/
def filesOf (rel : List String) : FNode → List (List String × Bytes)
  | .file c => [(rel, c)]
  | .dir es => filesIn rel es
/-- The regular files below a directory. -/
def filesIn (rel : List String) : List (String × FNode) → List (List String × Bytes)
  | [] => []
  | (n, child) :: rest => filesOf (rel ++ [n]) child ++ filesIn rel rest
end

/-- Extracting an archive, in the words of the specification: every entry that
is not a directory becomes a file at the path its name spells (the elements
between the slashes), holding the bytes of the entry. -/
def extractedFiles (entries : List ZipEntry) : List (List String × Bytes) :=
  (entries.filter (fun e => !e.isDir)).map (fun e => (pathElems e.name, e.content))

/-! ## Concrete runs

File contents are short tags (the UTF-8 bytes of a word); `demoDecode` gives
the JSON value a tag stands for and `demoUnzip` the entries of an archive. -/

/-- The `config` map after a `config.json` with all three keys has been
decoded: its lists are `[]interface{}` values. -/
def loadedConfig : GoMap :=
  [("ignored_directories", .arr [.str ".git"]),
   ("output_directory", .str "public"),
   ("valid_binary_extensions",
     .arr [.str ".nro", .str ".elf", .str ".rpx", .str ".cia", .str ".3dsx", .str ".dol"])]

/-- The `info` object of the example descriptors. -/
def demoInfo (category version : String) (more : GoMap) : GoMap :=
  [("title", .str "Foo"), ("author", .str "someone"), ("category", .str category),
   ("version", .str version), ("url", .str "https://example.org"), ("license", .str "MIT"),
   ("description", .str "short"), ("details", .str "long")] ++ more

/-- An example build descriptor. -/
def demoPkgBuild (name category version : String) (more : GoMap) (assets : List GoVal) :
    GoMap :=
  [("package", .str name), ("info", .obj (demoInfo category version more)),
   ("assets", .arr assets)]

/-- An asset of the given type whose source and destination are both `file`. -/
def demoAsset (ty file : String) : GoVal :=
  .obj [("type", .str ty), ("url", .str file), ("dest", .str file)]

/-- Two `get` sub-assets of an archive. -/
def bundleSubAssets : List GoVal :=
  [.obj [("type", .str "get"), ("path", .str "a.nro"), ("dest", .str "a.nro")],
   .obj [("type", .str "get"), ("path", .str "b.nro"), ("dest", .str "b.nro")]]

/-- An archive asset with two nested `get` sub-assets. -/
def bundleAsset : GoMap :=
  [("type", .str "zip"), ("url", .str "bundle.zip"), ("zip", .arr bundleSubAssets)]

/-- A previous index with the single record `foo` 1.0. -/
def demoIndex : GoMap :=
  [("packages", .arr [.obj [("name", .str "foo"), ("version", .str "1.0")]])]

/-- The JSON values behind the file tags. -/
def demoDecode (c : Bytes) : Option GoVal :=
  if c = utf8 "config" then some (.obj loadedConfig)
  else if c = utf8 "config without lists" then some (.obj [("output_directory", .str "public")])
  else if c = utf8 "empty object" then some (.obj [])
  else if c = utf8 "foo 1.0" then
    some (.obj (demoPkgBuild "foo" "tool" "1.0" [] [demoAsset "get" "foo.nro"]))
  else if c = utf8 "foo 1.1" then
    some (.obj (demoPkgBuild "foo" "tool" "1.1" [] [demoAsset "get" "foo.nro"]))
  else if c = utf8 "foo with timestamp" then
    some (.obj (demoPkgBuild "foo" "tool" "1.0" [("timestamp", .float64 1700000000)]
      [demoAsset "get" "foo.nro"]))
  else if c = utf8 "foo with bundle" then
    some (.obj (demoPkgBuild "foo" "tool" "1.0" [] [.obj bundleAsset]))
  else if c = utf8 "foo theme" then
    some (.obj (demoPkgBuild "foo" "theme" "1.0" [] [demoAsset "get" "foo.nro"]))
  else if c = utf8 "index" then some (.obj demoIndex)
  else none

/-- The archives behind the file tags. -/
def demoUnzip (c : Bytes) : Option (List ZipEntry) :=
  if c = utf8 "bundle" then some [⟨"a.nro", false, utf8 "AAA"⟩, ⟨"b.nro", false, utf8 "BBB"⟩]
  else none

/-- A readable stand-in for the bytes of a zip archive. -/
def showEntries : List ZipEntry → Bytes
  | [] => []
  | e :: es => utf8 e.name ++ utf8 "=" ++ e.content ++ utf8 ";" ++ showEntries es

/-- The example environment: the program runs in `/work`, temp files go to
`/tmp`, every HTTP request fails, and an archive that is met during its own
walk has always been flushed. -/
def demoEnv : Env where
  cwd := ["work"]
  tempDir := "/tmp"
  jsonDecode := demoDecode
  jsonEncode := fun _ => utf8 "json"
  zipDecode := demoUnzip
  zipEncode := showEntries
  zipFlushed := fun _ _ => true
  httpGet := fun _ => none
  dirSize := 4096
  now := 86400
  formatDate := fun t => if t = 86400 then "1970-01-02" else "another day"

/-- A file system with `/tmp` and the given content of `/work`. -/
def demoFs (work : List (String × FNode)) : FNode :=
  .dir [("tmp", .dir []), ("work", .dir work)]

/-- A package directory `foo` with its binary and the given descriptor. -/
def fooDir (descriptor : String) : String × FNode :=
  ("foo", .dir [("foo.nro", .file (utf8 "FOO")), ("pkgbuild.json", .file (utf8 descriptor))])

/-- A state in the middle of a run whose `config.json` has been loaded. -/
def demoState (work : List (String × FNode)) : State :=
  ⟨demoFs work, loadedConfig, [], ⟨"", 0⟩, [], ["1", "2", "3", "4", "5", "6"]⟩

/-- The state in which `main` starts: `config` holds its defaults. -/
def startState (work : List (String × FNode)) : State :=
  ⟨demoFs work, defaultConfig, [], ⟨"", 0⟩, [], ["1", "2", "3", "4", "5", "6"]⟩

/-- The state of line 133 of `main` for package `foo`: `foo/manifest.install`
has just been created and its handle stands at offset 0. -/
def assetState (work : List (String × FNode)) : State :=
  match osCreate demoEnv (demoFs work) "foo/manifest.install" with
  | some fs1 => (demoState work).openManifest fs1 "foo/manifest.install"
  | none => demoState work

/-- A string field of an index record. -/
def fieldOf (k : String) : GoVal → Option String
  | .obj m => castStr (GoMap.get m k)
  | _ => none

/-- The file `config.json` with all three keys. -/
def configFile : String × FNode :=
  ("config.json", .file (utf8 "config"))

/-- A package directory `foo` that holds the archive `bundle.zip`. -/
def bundleDir : String × FNode :=
  ("foo", .dir [("bundle.zip", .file (utf8 "bundle")),
    ("pkgbuild.json", .file (utf8 "foo with bundle"))])

/-- A package directory `foo` with two files that carry a binary extension. -/
def twoBinariesDir : String × FNode :=
  ("foo", .dir [("a.nro", .file (utf8 "AAA")), ("b.nro", .file (utf8 "BBB")),
    ("pkgbuild.json", .file (utf8 "foo 1.0"))])

/-- The entries of a package directory `foo` with a file and a sub-directory. -/
def zipSceneEntries : List (String × FNode) :=
  [("a.nro", .file (utf8 "AAA")), ("sub", .dir [("b.nro", .file (utf8 "BBB"))])]

/-- A working directory with the package `foo` and the output directory
`public/zips`. -/
def zipScene : FNode :=
  demoFs [("foo", .dir zipSceneEntries), ("public", .dir [("zips", .dir [])])]

/-- The same tree once `public/zips/foo.zip` has been created. -/
def zipSceneCreated : FNode :=
  demoFs [("foo", .dir zipSceneEntries),
    ("public", .dir [("zips", .dir [("foo.zip", .file [])])])]

/-- An output directory `public` that holds the previous index `foo` 1.0. -/
def publishedDir : String × FNode :=
  ("public", .dir [("repo.json", .file (utf8 "index"))])

theorem entryOf_insertEntry (es : List (String × FNode)) (a : String) (v : FNode) (k : String) :
    entryOf (insertEntry es a v) k = if a = k then some v else entryOf es k := by
  induction es with
  | nil => simp [insertEntry, entryOf]
  | cons e rest ih =>
    obtain ⟨n, x⟩ := e
    by_cases hna : n = a
    · subst hna
      simp only [insertEntry, if_true, entryOf]
      by_cases hnk : n = k <;> simp [hnk]
    · by_cases hlt : ltChars a.data n.data = true
      · simp only [insertEntry, hna, if_false, hlt, if_true, entryOf]
      · simp only [insertEntry, hna, if_false, hlt, entryOf, ih]
        by_cases hnk : n = k
        · have hak : ¬ a = k := fun e => hna (hnk.trans e.symm)
          simp [hnk, hak]
        · simp [hnk]

theorem find_file_cons (c : Bytes) (a : String) (p : List String) :
    (FNode.file c).find (a :: p) = none := by
  simp [FNode.find]

theorem find_dir_cons (es : List (String × FNode)) (a : String) (p : List String) :
    (FNode.dir es).find (a :: p) = (entryOf es a).bind (fun child => child.find p) := by
  simp only [FNode.find]
  cases entryOf es a <;> rfl

theorem find_nil (t : FNode) : t.find [] = some t := by
  cases t <;> simp [FNode.find]

/-- After a successful `put` the new node is at the path. -/
theorem find_put_self (q : List String) :
    ∀ (t t1 : FNode) (v : FNode), t.put q v = some t1 → t1.find q = some v := by
  induction q with
  | nil =>
    intro t t1 v h
    simp only [FNode.put, Option.some.injEq] at h
    rw [← h, find_nil]
  | cons a qs ih =>
    intro t t1 v h
    cases t with
    | file c => simp [FNode.put] at h
    | dir es =>
      cases qs with
      | nil =>
        simp only [FNode.put, Option.some.injEq] at h
        rw [← h, find_dir_cons, entryOf_insertEntry]
        simp [find_nil]
      | cons a2 qs2 =>
        simp only [FNode.put] at h
        cases he : entryOf es a with
        | none => simp [he] at h
        | some child =>
          simp only [he] at h
          cases hc : child.put (a2 :: qs2) v with
          | none => simp [hc] at h
          | some child2 =>
            simp only [hc, Option.some.injEq] at h
            rw [← h, find_dir_cons, entryOf_insertEntry]
            simp only [if_true, Option.bind_some]
            exact ih child child2 v hc

theorem put_isSome_of_find (q : List String) :
    ∀ (t x v : FNode), t.find q = some x → (t.put q v).isSome = true := by
  induction q with
  | nil => intro t x v _; simp [FNode.put]
  | cons a qs ih =>
    intro t x v h
    cases t with
    | file c => simp [FNode.find] at h
    | dir es =>
      rw [find_dir_cons] at h
      cases qs with
      | nil => simp [FNode.put]
      | cons a2 qs2 =>
        cases he : entryOf es a with
        | none => simp [he] at h
        | some child =>
          simp only [he, Option.bind_some] at h
          have := ih child x v h
          obtain ⟨child2, hc⟩ := Option.isSome_iff_exists.mp this
          simp [FNode.put, he, hc]

/-! ## Lemmas on package `os`: what leaves the manifest file alone -/

theorem readFile_iff (env : Env) (fs : FNode) (mp : String) (c : Bytes) :
    readFile env fs mp = some c ↔ mp ≠ "" ∧ fs.find (resolve env mp) = some (.file c) := by
  unfold readFile osStat
  by_cases h : mp = ""
  · simp [h]
  · simp only [h, if_false, ne_eq, not_false_eq_true, true_and]
    cases hf : fs.find (resolve env mp) with
    | none => simp
    | some n =>
      cases n with
      | file x => simp
      | dir es => simp

theorem osCreate_some (env : Env) (fs fs1 : FNode) (q : String)
    (h : osCreate env fs q = some fs1) :
    q ≠ "" ∧ fs.put (resolve env q) (.file []) = some fs1 ∧
      ∀ es, fs.find (resolve env q) ≠ some (.dir es) := by
  unfold osCreate osStat at h
  by_cases hq : q = ""
  · simp [hq] at h
  · simp only [hq, if_false] at h
    cases hf : fs.find (resolve env q) with
    | none =>
      simp only [hf] at h
      exact ⟨hq, h, fun es => by simp⟩
    | some n =>
      cases n with
      | file x =>
        simp only [hf] at h
        exact ⟨hq, h, fun es => by simp⟩
      | dir es => simp [hf] at h

theorem find_osCreate (env : Env) (fs fs1 : FNode) (q : String)
    (h : osCreate env fs q = some fs1) : fs1.find (resolve env q) = some (.file []) :=
  find_put_self _ fs fs1 _ (osCreate_some env fs fs1 q h).2.1

/-- What is written through the handle of a file just created can be read
back. -/
theorem read_create_write (env : Env) (fs fs1 : FNode) (q : String) (x : Bytes)
    (h : osCreate env fs q = some fs1) : readFile env (fsWrite env fs1 q x) q = some x := by
  rw [readFile_iff]
  obtain ⟨hq, -, -⟩ := osCreate_some env fs fs1 q h
  have hf := find_osCreate env fs fs1 q h
  obtain ⟨fs2, h2⟩ := Option.isSome_iff_exists.mp
    (put_isSome_of_find _ fs1 _ (.file x) hf)
  unfold fsWrite
  rw [h2]
  exact ⟨hq, find_put_self _ _ _ _ h2⟩

/-! ## What the handling of assets does to the manifest file -/

theorem castObj_some {v : GoVal} {x : GoMap} (h : castObj v = some x) : v = .obj x := by
  cases v <;> simp [castObj] at h
  rw [h]

theorem castArr_some {v : GoVal} {x : List GoVal} (h : castArr v = some x) : v = .arr x := by
  cases v <;> simp [castArr] at h
  rw [h]

theorem depth_get_le (m : GoMap) (k : String) : (GoMap.get m k).depth ≤ depthKVs m := by
  induction m with
  | nil => simp [GoMap.get, GoMap.find, GoVal.depth]
  | cons kv rest ih =>
    obtain ⟨k1, v⟩ := kv
    by_cases h : k1 = k
    · simp [GoMap.get, GoMap.find, h, depthKVs]
    · have : GoMap.get ((k1, v) :: rest) k = GoMap.get rest k := by
        simp [GoMap.get, GoMap.find, h]
      rw [this]
      simp only [depthKVs]
      exact le_trans ih (le_max_right _ _)

theorem depth_le_depthList {x : GoVal} {xs : List GoVal} (h : x ∈ xs) :
    x.depth ≤ depthList xs := by
  induction xs with
  | nil => cases h
  | cons y ys ih =>
    simp only [depthList]
    rcases List.mem_cons.mp h with rfl | h1
    · exact le_max_left _ _
    · exact le_trans (ih h1) (le_max_right _ _)

theorem depthKVs_set_str (m : GoMap) (k u : String) :
    depthKVs (GoMap.set m k (.str u)) ≤ depthKVs m := by
  induction m with
  | nil => simp [GoMap.set, depthKVs, GoVal.depth]
  | cons kv rest ih =>
    obtain ⟨k1, v⟩ := kv
    by_cases h : k1 = k
    · simp [GoMap.set, h, depthKVs, GoVal.depth]
    · simp only [GoMap.set, h, if_false, depthKVs]
      exact max_le_max (le_refl _) ih

theorem handleSubAssets_congr (r1 r2 : GoMap → State → Outcome) (tmpDir : String)
    (subs : List GoVal)
    (h : ∀ sub ∈ subs, ∀ m, castObj sub = some m →
      ∀ (u : String) s, r1 (GoMap.set m "url" (.str u)) s = r2 (GoMap.set m "url" (.str u)) s) :
    ∀ s, handleSubAssets r1 tmpDir subs s = handleSubAssets r2 tmpDir subs s := by
  induction subs with
  | nil => intro s; rfl
  | cons sub rest ih =>
    intro s
    have ih2 := ih (fun x hx => h x (List.mem_cons_of_mem _ hx))
    cases hsub : castObj sub with
    | none => simp [handleSubAssets, hsub]
    | some info =>
      cases hpath : castStr (GoMap.get info "path") with
      | none => simp [handleSubAssets, hsub, hpath]
      | some path =>
        have hr := h sub (List.mem_cons_self _ _) info hsub (filepathJoin [tmpDir, path]) s
        simp only [handleSubAssets, hsub, hpath, hr]
        cases r2 (GoMap.set info "url" (.str (filepathJoin [tmpDir, path]))) s with
        | done s1 => exact ih2 s1
        | panic s1 => rfl
        | hangs s1 => rfl
        | outOfFuel s1 => rfl

theorem handleAssetType_congr (r1 r2 : GoMap → State → Outcome) (env : Env)
    (pkg file : String) (asset : GoMap) (s : State)
    (h : ∀ subs, castArr (asset.get "zip") = some subs → ∀ sub ∈ subs, ∀ m,
      castObj sub = some m → ∀ (u : String) t,
        r1 (GoMap.set m "url" (.str u)) t = r2 (GoMap.set m "url" (.str u)) t) :
    handleAssetType r1 env pkg file asset s = handleAssetType r2 env pkg file asset s := by
  have hz : handleZip r1 env file asset s = handleZip r2 env file asset s := by
    unfold handleZip
    cases hsubs : castArr (asset.get "zip") with
    | none => rfl
    | some subs =>
      simp only []
      split
      · rfl
      · split
        · rfl
        · rw [handleSubAssets_congr r1 r2 _ subs (h subs hsubs)]
  unfold handleAssetType
  rw [hz]

theorem handleAssetWith_congr (d1 d2 : String → GoMap → State → Outcome) (env : Env)
    (pkg : String) (asset : GoMap) (s : State)
    (h : ∀ file t, d1 file asset t = d2 file asset t) :
    handleAssetWith d1 env pkg asset s = handleAssetWith d2 env pkg asset s := by
  unfold handleAssetWith
  simp only [h]

theorem depth_of_subAsset (asset : GoMap) (subs : List GoVal) (sub : GoVal) (m : GoMap)
    (u : String) (hsubs : castArr (asset.get "zip") = some subs) (hsub : sub ∈ subs)
    (hm : castObj sub = some m) :
    depthKVs (GoMap.set m "url" (.str u)) + 2 ≤ depthKVs asset := by
  have h1 : depthKVs (GoMap.set m "url" (.str u)) ≤ depthKVs m := depthKVs_set_str m _ u
  have h2 : sub.depth ≤ depthList subs := depth_le_depthList hsub
  have h3 : sub = .obj m := by
    cases sub <;> simp [castObj] at hm
    rw [hm]
  have h4 : (GoMap.get asset "zip").depth ≤ depthKVs asset := depth_get_le asset "zip"
  have h5 : GoMap.get asset "zip" = .arr subs := by
    cases hz : GoMap.get asset "zip" <;> simp [hz, castArr] at hsubs
    rw [hsubs]
  rw [h5] at h4
  rw [h3] at h2
  simp only [GoVal.depth] at h4 h2
  omega

/-- More fuel than needed changes nothing. -/
theorem handleAssetFuel_stable (env : Env) (pkg : String) (n : Nat) :
    ∀ (m : Nat) (asset : GoMap) (s : State), depthKVs asset < n → depthKVs asset < m →
      handleAssetFuel env pkg n asset s = handleAssetFuel env pkg m asset s := by
  induction n with
  | zero => intro m asset s h; exact absurd h (Nat.not_lt_zero _)
  | succ n ih =>
    intro m asset s hn hm
    cases m with
    | zero => exact absurd hm (Nat.not_lt_zero _)
    | succ m =>
      unfold handleAssetFuel
      apply handleAssetWith_congr
      intro file t
      apply handleAssetType_congr
      intro subs hsubs sub hsub info hinfo u t2
      have hd := depth_of_subAsset asset subs sub info u hsubs hsub hinfo
      exact ih m _ t2 (by omega) (by omega)

/-- The recursion equation of the source: `handleAsset` is `handleAssetWith`
whose dispatcher is `handleAssetType` calling `handleAsset` again. -/
theorem handleAsset_eq (env : Env) (pkg : String) (asset : GoMap) (s : State) :
    handleAsset env pkg asset s
      = handleAssetWith (handleAssetType (handleAsset env pkg) env pkg) env pkg asset s := by
  unfold handleAsset
  simp only [handleAssetFuel]
  apply handleAssetWith_congr
  intro file t
  apply handleAssetType_congr
  intro subs hsubs sub hsub info hinfo u t2
  have hd := depth_of_subAsset asset subs sub info u hsubs hsub hinfo
  exact handleAssetFuel_stable env pkg (depthKVs asset)
    (depthKVs (GoMap.set info "url" (.str u)) + 1) (GoMap.set info "url" (.str u)) t2
    (by omega) (by omega)

theorem subOrder_congr (f g : GoMap → List (String × String)) (subs : List GoVal)
    (h : ∀ x ∈ subs, ∀ m, castObj x = some m → f m = g m) :
    subOrder f subs = subOrder g subs := by
  induction subs with
  | nil => rfl
  | cons x rest ih =>
    simp only [subOrder]
    rw [ih (fun y hy => h y (List.mem_cons_of_mem _ hy))]
    cases hx : castObj x with
    | none => rfl
    | some m => simp only [h x (List.mem_cons_self _ _) m hx]

theorem assetOrder_congr (f g : GoMap → List (String × String)) (asset : GoMap)
    (h : ∀ subs, castArr (asset.get "zip") = some subs → ∀ x ∈ subs, ∀ m,
      castObj x = some m → f m = g m) :
    assetOrder f asset = assetOrder g asset := by
  unfold assetOrder typeOrder
  cases hsubs : castArr (asset.get "zip") with
  | none => rfl
  | some subs => simp only [subOrder_congr f g subs (h subs hsubs)]

theorem depth_of_member (asset : GoMap) (subs : List GoVal) (x : GoVal) (m : GoMap)
    (hsubs : castArr (asset.get "zip") = some subs) (hx : x ∈ subs)
    (hm : castObj x = some m) : depthKVs m + 2 ≤ depthKVs asset := by
  have h2 : x.depth ≤ depthList subs := depth_le_depthList hx
  have h4 : (GoMap.get asset "zip").depth ≤ depthKVs asset := depth_get_le asset "zip"
  rw [castArr_some hsubs] at h4
  rw [castObj_some hm] at h2
  simp only [GoVal.depth] at h4 h2
  omega

/-- More fuel than the nesting of the asset changes nothing. -/
theorem installOrderFuel_stable (n : Nat) :
    ∀ (k : Nat) (asset : GoMap), depthKVs asset < n → depthKVs asset < k →
      installOrderFuel n asset = installOrderFuel k asset := by
  induction n with
  | zero => intro k asset h; exact absurd h (Nat.not_lt_zero _)
  | succ n ih =>
    intro k asset hn hk
    cases k with
    | zero => exact absurd hk (Nat.not_lt_zero _)
    | succ k =>
      unfold installOrderFuel
      apply assetOrder_congr
      intro subs hsubs x hx m hm
      have hd := depth_of_member asset subs x m hsubs hx hm
      exact ih k m (by omega) (by omega)

/-- The install assets of a package are those of its asset tree in depth-first
order: an install asset stands for itself, an archive for the install assets
of its sub-assets, in their order, and the assets of a list follow each
other. -/
theorem installOrder_eq :
    installOrder [] = [] ∧
    (∀ (a : GoMap) (rest : List GoVal),
      installOrder (.obj a :: rest) = installOrder [.obj a] ++ installOrder rest) ∧
    (∀ a : GoMap, installOrder [.obj a]
      = assetOrder (fun m => installOrder [.obj m]) a) := by
  refine ⟨rfl, ?_, ?_⟩
  · intro a rest
    simp [installOrder, subOrder, castObj]
  · intro a
    simp only [installOrder, subOrder, castObj, List.append_nil, installOrderFuel]
    apply assetOrder_congr
    intro subs hsubs x hx m hm
    have hd := depth_of_member a subs x m hsubs hx hm
    exact installOrderFuel_stable (depthKVs a) (depthKVs m + 1) m (by omega) (by omega)

/-! ## Lemmas on paths -/

theorem splitSlash_ne_nil (xs : List Char) : splitSlash xs ≠ [] := by
  cases xs with
  | nil => simp [splitSlash]
  | cons c cs =>
    unfold splitSlash
    split
    · simp
    · split <;> simp

theorem splitSlash_append (xs ys : List Char) :
    splitSlash (xs ++ '/' :: ys) = splitSlash xs ++ splitSlash ys := by
  induction xs with
  | nil => simp [splitSlash]
  | cons c cs ih =>
    by_cases hc : c = '/'
    · simp [splitSlash, hc, ih]
    · have hne := splitSlash_ne_nil cs
      cases hs : splitSlash cs with
      | nil => exact absurd hs hne
      | cons h t => simp [splitSlash, hc, ih, hs]

theorem splitSlash_of_no_slash (xs : List Char) (h : '/' ∉ xs) : splitSlash xs = [xs] := by
  induction xs with
  | nil => rfl
  | cons c cs ih =>
    have hc : c ≠ '/' := fun e => h (by simp [e])
    have hcs : '/' ∉ cs := fun e => h (by simp [e])
    simp [splitSlash, hc, ih hcs]

theorem pathElems_append (a b : String) :
    pathElems (a ++ "/" ++ b) = pathElems a ++ pathElems b := by
  have : (a ++ "/" ++ b).data = a.data ++ '/' :: b.data := by
    simp [String.data_append]
  simp [pathElems, this, splitSlash_append]

theorem pathElems_name (n : String) (h : '/' ∉ n.data) : pathElems n = [n] := by
  simp [pathElems, splitSlash_of_no_slash n.data h]

theorem pathElems_empty : pathElems "" = [""] := by decide

theorem joinSlash_cons (a : String) (rest : List String) (h : rest ≠ []) :
    joinSlash (a :: rest) = a ++ "/" ++ joinSlash rest := by
  cases rest with
  | nil => exact absurd rfl h
  | cons b bs => rfl

theorem joinSlash_snoc (xs : List String) (n : String) (h : xs ≠ []) :
    joinSlash (xs ++ [n]) = joinSlash xs ++ "/" ++ n := by
  induction xs with
  | nil => exact absurd rfl h
  | cons a rest ih =>
    cases rest with
    | nil => rfl
    | cons b bs =>
      have := ih (by simp)
      simp only [List.cons_append] at this ⊢
      rw [joinSlash_cons a (b :: (bs ++ [n])) (by simp), this,
        joinSlash_cons a (b :: bs) (by simp)]
      simp [String.append_assoc]

theorem pathElems_joinSlash (xs : List String) (hne : xs ≠ [])
    (h : ∀ x ∈ xs, '/' ∉ x.data) : pathElems (joinSlash xs) = xs := by
  induction xs with
  | nil => exact absurd rfl hne
  | cons a rest ih =>
    cases rest with
    | nil => simpa [joinSlash] using pathElems_name a (h a (by simp))
    | cons b bs =>
      rw [joinSlash_cons a (b :: bs) (by simp), pathElems_append,
        pathElems_name a (h a (by simp)), ih (by simp) (fun x hx => h x (by simp [hx]))]
      rfl

theorem cleanElems_plain (rooted : Bool) (comps : List String) :
    ∀ acc : List String, (∀ c ∈ comps, c ≠ "." ∧ c ≠ "..") →
      cleanElems rooted acc comps = acc.reverse ++ comps.filter (fun c => c ≠ "") := by
  induction comps with
  | nil => intro acc _; simp [cleanElems]
  | cons c cs ih =>
    intro acc h
    have hc := h c (by simp)
    have hcs : ∀ x ∈ cs, x ≠ "." ∧ x ≠ ".." := fun x hx => h x (by simp [hx])
    by_cases he : c = ""
    · simp [cleanElems, he, ih acc hcs]
    · simp [cleanElems, he, hc.1, hc.2, ih (c :: acc) hcs]

theorem validName_iff (n : String) :
    validName n = true ↔ n ≠ "" ∧ n ≠ "." ∧ n ≠ ".." ∧ '/' ∉ n.data := by
  simp [validName]

theorem isRooted_append_of_valid (n t : String) (h : validName n = true) :
    isRooted (n ++ t) = false := by
  obtain ⟨h1, -, -, h4⟩ := (validName_iff n).mp h
  have hd : n.data ≠ [] := by
    intro e
    apply h1
    cases n
    simp_all
  cases hn : n.data with
  | nil => exact absurd hn hd
  | cons c cs =>
    have hc : c ≠ '/' := by
      intro e
      apply h4
      rw [hn, e]
      simp
    simp [isRooted, String.data_append, hn, hc]

/-- Cleaning a path made of a valid first name and further elements that are
valid names or empty. -/
theorem filepathClean_of_elems (n t : String) (rest : List String)
    (hn : validName n = true) (ht : pathElems (n ++ t) = n :: rest)
    (hrest : ∀ c ∈ rest, c ≠ "." ∧ c ≠ "..") :
    filepathClean (n ++ t) = joinSlash (n :: rest.filter (fun c => c ≠ "")) := by
  obtain ⟨h1, h2, h3, -⟩ := (validName_iff n).mp hn
  have hall : ∀ c ∈ n :: rest, c ≠ "." ∧ c ≠ ".." := by
    intro c hc
    rcases List.mem_cons.mp hc with rfl | hc
    · exact ⟨h2, h3⟩
    · exact hrest c hc
  simp only [filepathClean, isRooted_append_of_valid n t hn, ht,
    cleanElems_plain false (n :: rest) [] hall]
  simp [List.filter_cons, h1]

/-! ## C1: the incremental build guard -/

theorem findPrevPkg_firstNamed (name : String) (records : List GoVal)
    (h : typedUpToMatch name records = true) :
    findPrevPkg name records = .ok ((firstNamed name records).bind castObj) := by
  induction records with
  | nil => rfl
  | cons r rest ih =>
    cases r with
    | obj m =>
      cases hv : GoMap.get m "name" with
      | str t =>
        by_cases hnt : t = name
        · subst hnt
          simp [findPrevPkg, castObj, hv, castStr, firstNamed, recordNamed, eqStrVal]
        · have hnt2 : ¬ name = t := fun e => hnt e.symm
          simp only [typedUpToMatch, recordNamed, eqStrVal, hv, hnt2, decide_False,
            Bool.false_eq_true, if_false, Bool.and_eq_true] at h
          simp [findPrevPkg, castObj, hv, castStr, firstNamed, recordNamed, eqStrVal, hnt, hnt2]
          simpa [firstNamed] using ih h.2
      | _ => simp [typedUpToMatch, recordNamed, eqStrVal, hasName, hv, castStr] at h
    | _ => simp [typedUpToMatch, recordNamed, hasName] at h

theorem firstNamed_isRecord (name : String) (records : List GoVal) (r : GoVal)
    (h : typedUpToMatch name records = true) (hr : firstNamed name records = some r) :
    isIndexRecord r = true := by
  induction records with
  | nil => simp [firstNamed] at hr
  | cons x rest ih =>
    by_cases hx : recordNamed name x = true
    · simp only [firstNamed, List.find?_cons, hx, Option.some.injEq] at hr
      simp only [typedUpToMatch, hx, if_true] at h
      rw [← hr]
      exact h
    · simp only [Bool.not_eq_true] at hx
      simp only [firstNamed, List.find?_cons, hx] at hr
      simp only [typedUpToMatch, hx, Bool.false_eq_true, if_false, Bool.and_eq_true] at h
      exact ih h.2 hr

/-- An index whose records are all typed as in the data model is typed as far
as any lookup reads it. -/
theorem typedUpToMatch_of_all (name : String) (records : List GoVal)
    (h : records.all isIndexRecord = true) : typedUpToMatch name records = true := by
  induction records with
  | nil => rfl
  | cons r rest ih =>
    simp only [List.all_cons, Bool.and_eq_true] at h
    have hn : hasName r = true := by
      cases r <;> simp_all [isIndexRecord, hasName]
    simp only [typedUpToMatch]
    split
    · exact h.1
    · simp [hn, ih h.2]

/-- C1 (Incremental Build Guard).  For every descriptor that loads, with or
without a previous index.  Types are assumed only when a previous index was
loaded, the one case in which the guard reads anything: the index then has an
array `packages` whose records, up to and including the first one with the
candidate's name, carry a string `name` (and that one a string `version`), and
the descriptor a string `package`, `info.version` and `info.title`; when no
index was loaded (`main` then passes the empty map) nothing is asked of
either.  The guard of
`main` decides "skip" exactly when a previous index was loaded and the first
record with the candidate's name has the candidate's version string.  When it
skips, the iteration only prints the "hasn't changed" line: file system,
manifest and index are untouched.  Otherwise (no index loaded, no record of
that name, or another version string) the iteration is the build of the
package. -/
theorem incremental_build_guard (env : Env) (updatingRepo : Bool)
    (previousRepoJSON pkgBuild : GoMap) (records : List GoVal)
    (name version title pkg : String) (s : State)
    (hload : loadJSONFile env s.fs (filepathJoin [pkg, "pkgbuild.json"]) = some pkgBuild)
    (htyped : updatingRepo = true →
      GuardTyped previousRepoJSON pkgBuild records name version title) :
    (skipGuard updatingRepo previousRepoJSON pkgBuild = .ok (some title) ↔
      SkipCondition updatingRepo records name version) ∧
    (SkipCondition updatingRepo records name version →
      packageStep env updatingRepo previousRepoJSON pkg s
        = .done (s.print (.unchanged title))) ∧
    (¬ SkipCondition updatingRepo records name version →
      skipGuard updatingRepo previousRepoJSON pkgBuild = .ok none ∧
      packageStep env updatingRepo previousRepoJSON pkg s
        = buildPackage env pkg pkgBuild s) ∧
    (updatingRepo = false →
      packageStep env updatingRepo previousRepoJSON pkg s
        = buildPackage env pkg pkgBuild s) := by
  classical
  have key : skipGuard updatingRepo previousRepoJSON pkgBuild =
      .ok (if SkipCondition updatingRepo records name version then some title else none) := by
    unfold SkipCondition
    cases updatingRepo with
    | false => simp [skipGuard]
    | true =>
      obtain ⟨hprev, hrecords, hname, info, hinfo, hversion, htitle⟩ := htyped rfl
      simp only [skipGuard, if_true, hname, castStr, getPrevPkgInfo, hprev, castArr,
        findPrevPkg_firstNamed name records hrecords, true_and]
      cases hf : firstNamed name records with
      | none => simp
      | some r =>
        have hr := firstNamed_isRecord name records r hrecords hf
        cases r with
        | obj m =>
          simp only [isIndexRecord, Bool.and_eq_true, Option.isSome_iff_exists] at hr
          obtain ⟨-, ⟨v, hv⟩⟩ := hr
          cases hmv : GoMap.get m "version" with
          | str pv =>
            by_cases hpv : pv = version
            · subst hpv
              have : ∃ prevPkgInfo : GoMap, some (GoVal.obj m) = some (GoVal.obj prevPkgInfo) ∧
                  prevPkgInfo.get "version" = .str pv := ⟨m, rfl, hmv⟩
              simp [castObj, castStr, hmv, hinfo, hversion, htitle, this]
            · have : ¬ ∃ prevPkgInfo : GoMap, some (GoVal.obj m) = some (GoVal.obj prevPkgInfo) ∧
                  prevPkgInfo.get "version" = .str version := by
                rintro ⟨m2, h1, h2⟩
                simp only [Option.some.injEq, GoVal.obj.injEq] at h1
                subst h1
                rw [hmv] at h2
                exact hpv (GoVal.str.inj h2)
              simp [castObj, castStr, hmv, hinfo, hversion, hpv, this]
          | _ => simp [hmv, castStr] at hv
        | _ => simp [isIndexRecord] at hr
  refine ⟨?_, ?_, ?_, ?_⟩
  · rw [key]
    constructor
    · intro h
      by_contra hc
      rw [if_neg hc] at h
      cases h
    · intro h
      rw [if_pos h]
  · intro h
    simp only [packageStep, hload, key, if_pos h]
  · intro h
    simp only [packageStep, hload, key, if_neg h, and_self]
  · intro h
    have hn : ¬ SkipCondition updatingRepo records name version := by
      rintro ⟨h1, -⟩
      rw [h] at h1
      cases h1
    simp only [packageStep, hload, key, if_neg hn]

/-- Witness for C1.  With the previous index `foo` 1.0, the candidate `foo`
1.0 is skipped and the candidate `foo` 1.1 is built, also when a record that
is no record at all follows the one of `foo`.  Without a previous index
(`main` passes `false` and the empty map) the candidate is built.  In the whole
run of `main`: with the index in `public`, the skipped package leaves no
manifest, zip or record and the rebuilt one leaves all three; without an
output directory the package is built. -/
theorem incremental_build_guard_witness :
    packageStep demoEnv true demoIndex "foo" (demoState [fooDir "foo 1.0"])
      = .done ((demoState [fooDir "foo 1.0"]).print (.unchanged "Foo")) ∧
    packageStep demoEnv true
        [("packages", .arr [.obj [("name", .str "foo"), ("version", .str "1.0")], .str "junk"])]
        "foo" (demoState [fooDir "foo 1.0"])
      = .done ((demoState [fooDir "foo 1.0"]).print (.unchanged "Foo")) ∧
    packageStep demoEnv true demoIndex "foo" (demoState [fooDir "foo 1.1"])
      = buildPackage demoEnv "foo"
          (demoPkgBuild "foo" "tool" "1.1" [] [demoAsset "get" "foo.nro"])
          (demoState [fooDir "foo 1.1"]) ∧
    packageStep demoEnv false [] "foo" (demoState [fooDir "foo 1.0"])
      = buildPackage demoEnv "foo"
          (demoPkgBuild "foo" "tool" "1.0" [] [demoAsset "get" "foo.nro"])
          (demoState [fooDir "foo 1.0"]) ∧
    ((main demoEnv (startState [configFile, fooDir "foo 1.0", publishedDir])).isDone = true ∧
      (main demoEnv (startState [configFile, fooDir "foo 1.0", publishedDir])).state.repoPackages.length
        = 0 ∧
      readFile demoEnv (main demoEnv (startState [configFile, fooDir "foo 1.0",
        publishedDir])).state.fs "foo/manifest.install" = none ∧
      readFile demoEnv (main demoEnv (startState [configFile, fooDir "foo 1.0",
        publishedDir])).state.fs "public/zips/foo.zip" = none) ∧
    ((main demoEnv (startState [configFile, fooDir "foo 1.1", publishedDir])).state.repoPackages.map
        (fieldOf "version") = [some "1.1"] ∧
      readFile demoEnv (main demoEnv (startState [configFile, fooDir "foo 1.1",
        publishedDir])).state.fs "foo/manifest.install" = some (utf8 "G: foo.nro\n") ∧
      (readFile demoEnv (main demoEnv (startState [configFile, fooDir "foo 1.1",
        publishedDir])).state.fs "public/zips/foo.zip").isSome = true) ∧
    ((main demoEnv (startState [configFile, fooDir "foo 1.0"])).state.repoPackages.map
        (fieldOf "version") = [some "1.0"] ∧
      readFile demoEnv (main demoEnv (startState [configFile, fooDir "foo 1.0"])).state.fs
        "foo/manifest.install" = some (utf8 "G: foo.nro\n") ∧
      (readFile demoEnv (main demoEnv (startState [configFile, fooDir "foo 1.0"])).state.fs
        "public/zips/foo.zip").isSome = true) :=
  ⟨(incremental_build_guard demoEnv true demoIndex
      (demoPkgBuild "foo" "tool" "1.0" [] [demoAsset "get" "foo.nro"])
      [.obj [("name", .str "foo"), ("version", .str "1.0")]]
      "foo" "1.0" "Foo" "foo" (demoState [fooDir "foo 1.0"]) rfl
      (fun _ => ⟨rfl, by decide, rfl, demoInfo "tool" "1.0" [], rfl, rfl, rfl⟩)).2.1
      ⟨rfl, [("name", .str "foo"), ("version", .str "1.0")], rfl, rfl⟩,
   (incremental_build_guard demoEnv true
      [("packages", .arr [.obj [("name", .str "foo"), ("version", .str "1.0")], .str "junk"])]
      (demoPkgBuild "foo" "tool" "1.0" [] [demoAsset "get" "foo.nro"])
      [.obj [("name", .str "foo"), ("version", .str "1.0")], .str "junk"]
      "foo" "1.0" "Foo" "foo" (demoState [fooDir "foo 1.0"]) rfl
      (fun _ => ⟨rfl, by decide, rfl, demoInfo "tool" "1.0" [], rfl, rfl, rfl⟩)).2.1
      ⟨rfl, [("name", .str "foo"), ("version", .str "1.0")], rfl, rfl⟩,
   ((incremental_build_guard demoEnv true demoIndex
      (demoPkgBuild "foo" "tool" "1.1" [] [demoAsset "get" "foo.nro"])
      [.obj [("name", .str "foo"), ("version", .str "1.0")]]
      "foo" "1.1" "Foo" "foo" (demoState [fooDir "foo 1.1"]) rfl
      (fun _ => ⟨rfl, by decide, rfl, demoInfo "tool" "1.1" [], rfl, rfl, rfl⟩)).2.2.1
      (by
        unfold SkipCondition
        rintro ⟨-, m, h1, h2⟩
        have hm : m = [("name", .str "foo"), ("version", .str "1.0")] := by
          have h3 : firstNamed "foo" [.obj [("name", .str "foo"), ("version", .str "1.0")]]
              = some (.obj [("name", .str "foo"), ("version", .str "1.0")]) := rfl
          rw [h3] at h1
          exact (GoVal.obj.inj (Option.some.inj h1)).symm
        subst hm
        have h4 : GoMap.get [("name", .str "foo"), ("version", .str "1.0")] "version"
            = .str "1.0" := rfl
        rw [h4] at h2
        exact absurd (GoVal.str.inj h2) (by decide))).2,
   (incremental_build_guard demoEnv false []
      (demoPkgBuild "foo" "tool" "1.0" [] [demoAsset "get" "foo.nro"]) [] "" "" "" "foo"
      (demoState [fooDir "foo 1.0"]) rfl (fun h => Bool.noConfusion h)).2.2.2 rfl,
   by decide!, by decide!, by decide!⟩

/-! ## C2: manifest entries of `handleAssetType` -/

/-- When `main` enters the asset loop of a package (line 133), the manifest
has just been created and its handle stands at the end of the empty file. -/
theorem opened_at_asset_loop (env : Env) (s : State) (fs1 : FNode) (pkg : String) (n : Nat)
    (h : osCreate env s.fs (filepathJoin [pkg, "manifest.install"]) = some fs1) :
    Opened env ((s.openManifest fs1 (filepathJoin [pkg, "manifest.install"])).print
      (.assetCount n)) [] := by
  refine ⟨?_, rfl⟩
  rw [readFile_iff]
  exact ⟨(osCreate_some env s.fs fs1 _ h).1, find_osCreate env s.fs fs1 _ h⟩

/-- C4 (code evaluated at the failing input).  Package `foo` holds
`bundle.zip` with the entries `a.nro` and `b.nro`, and its archive asset lists
both as `get` sub-assets.  The sub-asset sources are rewritten to
`/tmp/zip_extract_2/a.nro` and `/tmp/zip_extract_2/b.nro`, but `handleAsset`
looks for `foo/tmp/zip_extract_2/...`, finds nothing, and takes the download
branch for both; the downloads fail and nothing is written to the manifest
file.  The scratch directory is gone afterwards. -/
theorem archive_subassets_are_downloaded :
    filepathJoin ["foo", "/tmp/zip_extract_2/a.nro"] = "foo/tmp/zip_extract_2/a.nro" ∧
    (handleAsset demoEnv "foo" bundleAsset (assetState [bundleDir])).state.log =
      [.isLocal, .typeZip 2,
       .downloading "/tmp/zip_extract_2/a.nro", .downloadFailed "/tmp/zip_extract_2/a.nro",
       .downloading "/tmp/zip_extract_2/b.nro", .downloadFailed "/tmp/zip_extract_2/b.nro"] ∧
    readFile demoEnv (handleAsset demoEnv "foo" bundleAsset (assetState [bundleDir])).state.fs
      "foo/manifest.install" = some [] ∧
    (handleAsset demoEnv "foo" bundleAsset (assetState [bundleDir])).state.manifest
      = ⟨"foo/manifest.install", 0⟩ ∧
    (osStat demoEnv (handleAsset demoEnv "foo" bundleAsset (assetState [bundleDir])).state.fs
      "/tmp/zip_extract_2").isSome = false ∧
    (main demoEnv (startState [configFile, bundleDir])).isDone = true ∧
    readFile demoEnv (main demoEnv (startState [configFile, bundleDir])).state.fs
      "foo/manifest.install" = some [] := by
  decide!

/-! ## C5: precedence in `getBinaryPath` -/

/-- C5.  For every info map, package and state (so for every package tree):
when `binary` is present, as a string `b`, `getBinaryPath` returns `b`,
whatever the category; when `binary` is absent and the category is `theme`, it
returns `none`.  In both cases the state comes back unchanged and the result
does not depend on the file system. -/
theorem getBinaryPath_precedence (env : Env) (info : GoMap) (pkg : String) (s : State) :
    (∀ b : String, info.find "binary" = some (.str b) →
      getBinaryPath env info pkg s = .ok (b, s)) ∧
    (info.find "binary" = none → info.get "category" = .str "theme" →
      getBinaryPath env info pkg s = .ok ("none", s)) := by
  constructor
  · intro b hb
    simp [getBinaryPath, hb, castStr]
  · intro hb hc
    simp [getBinaryPath, hb, hc, castStr]

/-- Witness for C5: an explicit `binary` wins over the category `theme`; a
theme without `binary` gets `none`, also in the record that `main` puts into
the index. -/
theorem getBinaryPath_precedence_witness :
    getBinaryPath demoEnv (demoInfo "theme" "1.0" [("binary", .str "boot.elf")]) "foo"
      (demoState [fooDir "foo theme"])
      = .ok ("boot.elf", demoState [fooDir "foo theme"]) ∧
    getBinaryPath demoEnv (demoInfo "theme" "1.0" []) "foo" (demoState [fooDir "foo theme"])
      = .ok ("none", demoState [fooDir "foo theme"]) ∧
    (main demoEnv (startState [configFile, fooDir "foo theme"])).state.repoPackages.map
      (fieldOf "binary") = [some "none"] :=
  ⟨(getBinaryPath_precedence demoEnv (demoInfo "theme" "1.0" [("binary", .str "boot.elf")])
      "foo" (demoState [fooDir "foo theme"])).1 "boot.elf" rfl,
   (getBinaryPath_precedence demoEnv (demoInfo "theme" "1.0" []) "foo"
      (demoState [fooDir "foo theme"])).2 rfl rfl,
   by decide!⟩

/-! ## C6: the guessed binary -/

/-- C6 (code evaluated at the failing input).  The walk of package `foo` meets
`foo/a.nro` before `foo/b.nro`; both end in `.nro`; `getBinaryPath` returns the
later one, because a match does not stop the walk. -/
theorem getBinaryPath_returns_last_match :
    ((walk demoEnv (demoState [twoBinariesDir]).fs "foo").getD []).map Visit.path =
      ["foo", "foo/a.nro", "foo/b.nro", "foo/pkgbuild.json"] ∧
    ((getBinaryPath demoEnv (demoInfo "tool" "1.0" []) "foo"
      (demoState [twoBinariesDir])).value.map Prod.fst) = some "foo/b.nro" := by
  decide!

theorem matchExt_strings (name : String) (exts : List String) :
    matchExt name (exts.map GoVal.str) = .ok (exts.any (stringsHasSuffix name)) := by
  induction exts with
  | nil => rfl
  | cons e es ih =>
    by_cases h : stringsHasSuffix name e = true
    · simp [matchExt, castStr, h]
    · simp [matchExt, castStr, h, ih]

/-- In general, with string extensions in `config`, `getBinaryPath` walks the
whole tree and keeps the LAST file whose name ends in one of them. -/
theorem binaryWalk_keeps_last (config : GoMap) (exts : List String)
    (hcfg : config.get "valid_binary_extensions" = .arr (exts.map GoVal.str))
    (vs : List Visit) :
    ∀ binPath : String, binaryWalk config vs binPath
      = .ok ((((vs.filter (fun v => !v.node.isDir && exts.any (stringsHasSuffix v.name))).map
          Visit.path).getLast?).getD binPath) := by
  induction vs with
  | nil => intro p; rfl
  | cons v rest ih =>
    intro p
    by_cases hd : v.node.isDir = true
    · simp [binaryWalk, hd, ih]
    · by_cases hm : exts.any (stringsHasSuffix v.name) = true
      · simp only [binaryWalk, hd, hcfg, castArr, matchExt_strings, hm, ih, Bool.false_eq_true,
          if_false]
        simp only [List.filter_cons, hd, hm, Bool.not_false, Bool.and_self, if_true,
          List.map_cons, Bool.not_eq_true]
        cases hl : (List.map Visit.path (List.filter
            (fun v => !v.node.isDir && exts.any (stringsHasSuffix v.name)) rest)) with
        | nil => simp
        | cons a as =>
          rw [List.getLast?_cons_cons, List.getLast?_eq_getLast (a :: as) (by simp)]
          rfl
      · simp only [Bool.not_eq_true] at hm
        simp [binaryWalk, hd, hcfg, castArr, matchExt_strings, hm, ih, List.filter_cons]

/-! ## C7: the zip archive of a package -/

theorem dropFront_append (p t : List Char) : dropFront p (p ++ t) = some t := by
  induction p with
  | nil => rfl
  | cons c cs ih => simp [dropFront, ih]

theorem stringsTrimPrefix_append (n t : String) : stringsTrimPrefix (n ++ t) n = t := by
  simp [stringsTrimPrefix, String.data_append, dropFront_append]

theorem joinSlash_eq_append (n : String) (rel : List String) :
    joinSlash (n :: rel) = n ++ (if rel = [] then "" else "/" ++ joinSlash rel) := by
  cases rel with
  | nil => simp [joinSlash]
  | cons b bs => simp [joinSlash, String.append_assoc]

theorem filter_valid (rel : List String) (h : ∀ x ∈ rel, validName x = true) :
    rel.filter (fun c => c ≠ "") = rel := by
  apply List.filter_eq_self.mpr
  intro x hx
  simpa using ((validName_iff x).mp (h x hx)).1

theorem not_dots_of_valid (rel : List String) (h : ∀ x ∈ rel, validName x = true) :
    ∀ c ∈ rel, c ≠ "." ∧ c ≠ ".." := fun c hc =>
  ⟨((validName_iff c).mp (h c hc)).2.1, ((validName_iff c).mp (h c hc)).2.2.1⟩

/-- The path of a directory entry during the walk. -/
theorem filepathJoin_child (pkg : String) (rel : List String) (n : String)
    (hpkg : validName pkg = true) (hrel : ∀ x ∈ rel, validName x = true)
    (hn : validName n = true) :
    filepathJoin [joinSlash (pkg :: rel), n] = joinSlash (pkg :: (rel ++ [n])) := by
  have hne : joinSlash (pkg :: rel) ≠ "" := by
    intro e
    have h2 := ((validName_iff pkg).mp hpkg).1
    have h3 : (joinSlash (pkg :: rel)).data = [] := by rw [e]
    rw [joinSlash_eq_append, String.data_append] at h3
    apply h2
    have h4 : pkg.data = [] := (List.append_eq_nil.mp h3).1
    cases pkg
    simp_all
  have hall : ∀ x ∈ rel ++ [n], validName x = true := by
    intro x hx
    rcases List.mem_append.mp hx with h | h
    · exact hrel x h
    · rw [List.mem_singleton.mp h]; exact hn
  have e1 : joinSlash [joinSlash (pkg :: rel), n] = joinSlash (pkg :: (rel ++ [n])) := by
    have := joinSlash_snoc (pkg :: rel) n (by simp)
    simp only [List.cons_append] at this
    rw [this]
    rfl
  have e2 : joinSlash (pkg :: (rel ++ [n]))
      = pkg ++ (if rel ++ [n] = [] then "" else "/" ++ joinSlash (rel ++ [n])) :=
    joinSlash_eq_append pkg (rel ++ [n])
  have e3 : pathElems (joinSlash (pkg :: (rel ++ [n]))) = pkg :: (rel ++ [n]) := by
    apply pathElems_joinSlash _ (by simp)
    intro x hx
    rcases List.mem_cons.mp hx with rfl | h
    · exact ((validName_iff _).mp hpkg).2.2.2
    · exact ((validName_iff x).mp (hall x h)).2.2.2
  simp only [filepathJoin, hne, if_false, e1]
  rw [e2] at e3 ⊢
  rw [filepathClean_of_elems pkg _ (rel ++ [n]) hpkg e3 (not_dots_of_valid _ hall),
    filter_valid _ hall]
  exact e2

/-- The name `zipDirectory` gives to the entry of a visited file. -/
theorem entry_name (pkg : String) (rel : List String) (hpkg : validName pkg = true)
    (hrel : ∀ x ∈ rel, validName x = true) :
    filepathJoin [pkg, stringsTrimPrefix (joinSlash (pkg :: rel)) pkg]
      = joinSlash (pkg :: rel) := by
  have hne : pkg ≠ "" := ((validName_iff pkg).mp hpkg).1
  have hslash : '/' ∉ pkg.data := ((validName_iff pkg).mp hpkg).2.2.2
  rw [joinSlash_eq_append, stringsTrimPrefix_append]
  simp only [filepathJoin, hne, if_false]
  by_cases hr : rel = []
  · subst hr
    have e : joinSlash [pkg, ""] = pkg ++ "/" := by simp [joinSlash]
    have e3 : pathElems (pkg ++ "/") = pkg :: [""] := by
      have := pathElems_append pkg ""
      simp only [String.append_empty] at this
      rw [this, pathElems_name pkg hslash, pathElems_empty]
      rfl
    simp only [if_true, e]
    rw [filepathClean_of_elems pkg "/" [""] hpkg e3 (by decide)]
    simp [joinSlash]
  · have e : joinSlash [pkg, "/" ++ joinSlash rel] = pkg ++ ("/" ++ ("/" ++ joinSlash rel)) := by
      simp [joinSlash, String.append_assoc]
    have e3 : pathElems (pkg ++ ("/" ++ ("/" ++ joinSlash rel))) = pkg :: ("" :: rel) := by
      have h1 : pkg ++ ("/" ++ ("/" ++ joinSlash rel)) = pkg ++ "/" ++ ("" ++ "/" ++ joinSlash rel) := by
        simp [String.append_assoc]
      rw [h1, pathElems_append, pathElems_append, pathElems_name pkg hslash, pathElems_empty,
        pathElems_joinSlash rel hr (fun x hx => ((validName_iff x).mp (hrel x hx)).2.2.2)]
      rfl
    simp only [hr, if_false, e]
    rw [filepathClean_of_elems pkg _ ("" :: rel) hpkg e3]
    · have : List.filter (fun c => decide (c ≠ "")) ("" :: rel) = rel := by
        rw [List.filter_cons]
        simp only [ne_eq, not_true_eq_false, decide_False]
        exact filter_valid rel hrel
      rw [this, joinSlash_eq_append]
      simp [hr]
    · intro c hc
      rcases List.mem_cons.mp hc with rfl | h
      · decide
      · exact not_dots_of_valid rel hrel c h

theorem zipEntriesOf_append (sourceDir : String) (a b : List Visit) :
    zipEntriesOf sourceDir (a ++ b) = zipEntriesOf sourceDir a ++ zipEntriesOf sourceDir b := by
  induction a with
  | nil => rfl
  | cons v vs ih =>
    simp only [List.cons_append, zipEntriesOf]
    split <;> simp [ih]

mutual
theorem zipEntriesOf_walkNode (pkg : String) (hpkg : validName pkg = true) :
    ∀ (node : FNode) (rel : List String) (name : String),
      (∀ x ∈ rel, validName x = true) → node.validNames = true →
      zipEntriesOf pkg (walkNode (joinSlash (pkg :: rel)) name node)
        = (filesOf rel node).map (fun f => ⟨joinSlash (pkg :: f.1), false, f.2⟩)
  | .file c, rel, name, hrel, _ => by
    simp [walkNode, zipEntriesOf, filesOf, entry_name pkg rel hpkg hrel]
  | .dir es, rel, name, hrel, hv => by
    simp only [walkNode, zipEntriesOf, filesOf]
    exact zipEntriesOf_walkEntries pkg hpkg es rel hrel (by simpa [FNode.validNames] using hv)
theorem zipEntriesOf_walkEntries (pkg : String) (hpkg : validName pkg = true) :
    ∀ (es : List (String × FNode)) (rel : List String),
      (∀ x ∈ rel, validName x = true) → validEntries es = true →
      zipEntriesOf pkg (walkEntries (joinSlash (pkg :: rel)) es)
        = (filesIn rel es).map (fun f => ⟨joinSlash (pkg :: f.1), false, f.2⟩)
  | [], rel, _, _ => by simp [walkEntries, zipEntriesOf, filesIn]
  | (n, child) :: rest, rel, hrel, hv => by
    simp only [validEntries, Bool.and_eq_true] at hv
    obtain ⟨⟨hn, hc⟩, hr⟩ := hv
    have hrel2 : ∀ x ∈ rel ++ [n], validName x = true := by
      intro x hx
      rcases List.mem_append.mp hx with h | h
      · exact hrel x h
      · rw [List.mem_singleton.mp h]; exact hn
    simp only [walkEntries, filesIn, zipEntriesOf_append, List.map_append,
      filepathJoin_child pkg rel n hpkg hrel hn]
    rw [zipEntriesOf_walkNode pkg hpkg child (rel ++ [n]) n hrel2 hc,
      zipEntriesOf_walkEntries pkg hpkg rest rel hrel hr]
end

mutual
theorem walkNode_paths (pkg : String) (hpkg : validName pkg = true) :
    ∀ (node : FNode) (rel : List String) (name : String),
      (∀ x ∈ rel, validName x = true) → node.validNames = true →
      ∀ v ∈ walkNode (joinSlash (pkg :: rel)) name node,
        ∃ rel1 : List String, v.path = joinSlash (pkg :: rel1) ∧ ∀ x ∈ rel1, validName x = true
  | .file c, rel, name, hrel, _ => by
    intro v hv
    simp only [walkNode, List.mem_singleton] at hv
    exact ⟨rel, by rw [hv], hrel⟩
  | .dir es, rel, name, hrel, hv => by
    intro v hmem
    simp only [walkNode, List.mem_cons] at hmem
    rcases hmem with h | h
    · exact ⟨rel, by rw [h], hrel⟩
    · exact walkEntries_paths pkg hpkg es rel hrel (by simpa [FNode.validNames] using hv) v h
theorem walkEntries_paths (pkg : String) (hpkg : validName pkg = true) :
    ∀ (es : List (String × FNode)) (rel : List String),
      (∀ x ∈ rel, validName x = true) → validEntries es = true →
      ∀ v ∈ walkEntries (joinSlash (pkg :: rel)) es,
        ∃ rel1 : List String, v.path = joinSlash (pkg :: rel1) ∧ ∀ x ∈ rel1, validName x = true
  | [], rel, _, _ => by
    intro v hv
    simp [walkEntries] at hv
  | (n, child) :: rest, rel, hrel, hv => by
    intro v hmem
    simp only [validEntries, Bool.and_eq_true] at hv
    obtain ⟨⟨hn, hc⟩, hr⟩ := hv
    have hrel2 : ∀ x ∈ rel ++ [n], validName x = true := by
      intro x hx
      rcases List.mem_append.mp hx with h | h
      · exact hrel x h
      · rw [List.mem_singleton.mp h]; exact hn
    simp only [walkEntries, List.mem_append, filepathJoin_child pkg rel n hpkg hrel hn] at hmem
    rcases hmem with h | h
    · exact walkNode_paths pkg hpkg child (rel ++ [n]) n hrel2 hc v h
    · exact walkEntries_paths pkg hpkg rest rel hrel hr v h
end

mutual
theorem filesOf_valid :
    ∀ (node : FNode) (rel : List String),
      (∀ x ∈ rel, validName x = true) → node.validNames = true →
      ∀ f ∈ filesOf rel node, ∀ x ∈ f.1, validName x = true
  | .file c, rel, hrel, _ => by
    intro f hf
    simp only [filesOf, List.mem_singleton] at hf
    rw [hf]
    exact hrel
  | .dir es, rel, hrel, hv => by
    intro f hf
    simp only [filesOf] at hf
    exact filesIn_valid es rel hrel (by simpa [FNode.validNames] using hv) f hf
theorem filesIn_valid :
    ∀ (es : List (String × FNode)) (rel : List String),
      (∀ x ∈ rel, validName x = true) → validEntries es = true →
      ∀ f ∈ filesIn rel es, ∀ x ∈ f.1, validName x = true
  | [], rel, _, _ => by
    intro f hf
    simp [filesIn] at hf
  | (n, child) :: rest, rel, hrel, hv => by
    intro f hmem
    simp only [validEntries, Bool.and_eq_true] at hv
    obtain ⟨⟨hn, hc⟩, hr⟩ := hv
    have hrel2 : ∀ x ∈ rel ++ [n], validName x = true := by
      intro x hx
      rcases List.mem_append.mp hx with h | h
      · exact hrel x h
      · rw [List.mem_singleton.mp h]; exact hn
    simp only [filesIn, List.mem_append] at hmem
    rcases hmem with h | h
    · exact filesOf_valid child (rel ++ [n]) hrel2 hc f h
    · exact filesIn_valid rest rel hrel hr f h
end

/-- The absolute path of a file below the package directory. -/
theorem resolve_joinSlash (env : Env) (pkg : String) (rel : List String)
    (hpkg : validName pkg = true) (hrel : ∀ x ∈ rel, validName x = true) :
    resolve env (joinSlash (pkg :: rel)) = env.cwd ++ pkg :: rel := by
  have hall : ∀ x ∈ pkg :: rel, validName x = true := by
    intro x hx
    rcases List.mem_cons.mp hx with rfl | h
    · exact hpkg
    · exact hrel x h
  have e1 : isRooted (joinSlash (pkg :: rel)) = false := by
    rw [joinSlash_eq_append]
    exact isRooted_append_of_valid pkg _ hpkg
  have e2 : pathElems (joinSlash (pkg :: rel)) = pkg :: rel :=
    pathElems_joinSlash _ (by simp) (fun x hx => ((validName_iff x).mp (hall x hx)).2.2.2)
  simp only [resolve, e1, e2, Bool.false_eq_true, if_false]
  rw [cleanElems_plain true (pkg :: rel) env.cwd.reverse (not_dots_of_valid _ hall),
    filter_valid _ hall, List.reverse_reverse]

/-- A walk that never meets the archive writes one entry per visited
non-directory and ends. -/
theorem zipWalk_eq (env : Env) (sourceDir zipFileName : String) (visits : List Visit) :
    ∀ written : List ZipEntry,
      (∀ v ∈ visits, resolve env v.path ≠ resolve env zipFileName) →
      zipWalk env sourceDir zipFileName visits written
        = some (written ++ zipEntriesOf sourceDir visits) := by
  induction visits with
  | nil => intro written _; simp [zipWalk, zipEntriesOf]
  | cons v vs ih =>
    intro written h
    have hv := h v (List.mem_cons_self _ _)
    have hvs : ∀ x ∈ vs, resolve env x.path ≠ resolve env zipFileName :=
      fun x hx => h x (List.mem_cons_of_mem _ hx)
    unfold zipWalk zipEntriesOf
    cases hn : v.node with
    | dir es => simp only []; exact ih written hvs
    | file content =>
      simp only [hv, false_and, if_false]
      rw [ih _ hvs, List.append_assoc]
      rfl

theorem extractedFiles_of_files (pkg : String) (hpkg : validName pkg = true)
    (files : List (List String × Bytes)) (h : ∀ f ∈ files, ∀ x ∈ f.1, validName x = true) :
    extractedFiles (files.map (fun f => ⟨joinSlash (pkg :: f.1), false, f.2⟩))
      = files.map (fun f => (pkg :: f.1, f.2)) := by
  induction files with
  | nil => rfl
  | cons f rest ih =>
    have hf := h f (List.mem_cons_self _ _)
    have e : pathElems (joinSlash (pkg :: f.1)) = pkg :: f.1 :=
      pathElems_joinSlash _ (by simp) (by
        intro x hx
        rcases List.mem_cons.mp hx with rfl | hx
        · exact ((validName_iff _).mp hpkg).2.2.2
        · exact ((validName_iff x).mp (hf x hx)).2.2.2)
    have ih2 := ih (fun g hg => h g (List.mem_cons_of_mem _ hg))
    simp only [extractedFiles, List.map_cons, List.filter_cons, Bool.not_false, if_true,
      e] at ih2 ⊢
    rw [ih2]

/-- C7 (amended).  The package directory `pkg` is a plain name, every name
below it is a file name, it is there when the archive file has been created,
and the archive file does not lie inside it.  Then `zipDirectory` returns
without error and writes an archive with exactly one entry per regular file of
the tree, in walk order; the content of an entry is the bytes of its file, and
its name is the name of the package directory joined with the path of the file
relative to that directory (`pkg/a.nro`, not `a.nro`).  The archive file holds
the encoding of these entries; when decoding inverts encoding, extracting what
is read back from the archive file gives every file of the tree with its bytes
at `pkg/<relative path>`. -/
theorem zipDirectory_entries (env : Env) (fs fs1 : FNode) (pkg zipFileName : String)
    (es : List (String × FNode)) (hpkg : validName pkg = true)
    (hcreate : osCreate env fs zipFileName = some fs1)
    (hdir : osStat env fs1 pkg = some (.dir es)) (hvalid : validEntries es = true)
    (houtside : ¬ resolve env pkg <+: resolve env zipFileName) :
    zipDirectory env pkg zipFileName fs =
      .returned true (fsWrite env fs1 zipFileName (env.zipEncode
        ((filesIn [] es).map (fun f => ⟨joinSlash (pkg :: f.1), false, f.2⟩)))) ∧
    readFile env (fsWrite env fs1 zipFileName (env.zipEncode
        ((filesIn [] es).map (fun f => ⟨joinSlash (pkg :: f.1), false, f.2⟩)))) zipFileName
      = some (env.zipEncode
        ((filesIn [] es).map (fun f => ⟨joinSlash (pkg :: f.1), false, f.2⟩))) ∧
    (env.zipDecode (env.zipEncode
        ((filesIn [] es).map (fun f => ⟨joinSlash (pkg :: f.1), false, f.2⟩)))
      = some ((filesIn [] es).map (fun f => ⟨joinSlash (pkg :: f.1), false, f.2⟩)) →
      ((readFile env (fsWrite env fs1 zipFileName (env.zipEncode
          ((filesIn [] es).map (fun f => ⟨joinSlash (pkg :: f.1), false, f.2⟩))))
          zipFileName).bind env.zipDecode).map extractedFiles
        = some ((filesIn [] es).map (fun f => (pkg :: f.1, f.2)))) := by
  have h := zipEntriesOf_walkNode pkg hpkg (.dir es) [] (filepathBase pkg) (by simp)
    (by simpa [FNode.validNames] using hvalid)
  simp only [joinSlash, filesOf] at h
  have hpaths : ∀ v ∈ walkNode pkg (filepathBase pkg) (.dir es),
      resolve env v.path ≠ resolve env zipFileName := by
    intro v hv e
    obtain ⟨rel1, hp, hr⟩ := walkNode_paths pkg hpkg (.dir es) [] (filepathBase pkg) (by simp)
      (by simpa [FNode.validNames] using hvalid) v (by simpa [joinSlash] using hv)
    apply houtside
    have e0 := resolve_joinSlash env pkg [] hpkg (by simp)
    simp only [joinSlash] at e0
    rw [← e, hp, resolve_joinSlash env pkg rel1 hpkg hr, e0]
    exact ⟨rel1, by simp⟩
  have hw := zipWalk_eq env pkg zipFileName _ [] hpaths
  rw [h, List.nil_append] at hw
  have hread := read_create_write env fs fs1 zipFileName (env.zipEncode
    ((filesIn [] es).map (fun f => ⟨joinSlash (pkg :: f.1), false, f.2⟩))) hcreate
  refine ⟨?_, hread, ?_⟩
  · simp only [zipDirectory, hcreate, walk, hdir, hw]
  · intro hcodec
    rw [hread]
    simp only [Option.some_bind, hcodec, Option.map_some']
    rw [extractedFiles_of_files pkg hpkg _ (filesIn_valid es [] (by simp) hvalid)]

/-- Witness for C7: package `foo` with `a.nro` and `sub/b.nro`, archive
`public/zips/foo.zip`; the archive holds the entries `foo/a.nro` and
`foo/sub/b.nro`. -/
theorem zipDirectory_entries_witness :
    (validName "foo" = true ∧
      osCreate demoEnv zipScene "public/zips/foo.zip" = some zipSceneCreated ∧
      osStat demoEnv zipSceneCreated "foo" = some (.dir zipSceneEntries) ∧
      validEntries zipSceneEntries = true ∧
      ¬ resolve demoEnv "foo" <+: resolve demoEnv "public/zips/foo.zip") ∧
    zipDirectory demoEnv "foo" "public/zips/foo.zip" zipScene =
      .returned true (fsWrite demoEnv zipSceneCreated "public/zips/foo.zip" (demoEnv.zipEncode
        ((filesIn [] zipSceneEntries).map
          (fun f => ⟨joinSlash ("foo" :: f.1), false, f.2⟩)))) ∧
    (filesIn [] zipSceneEntries).map (fun f => (joinSlash ("foo" :: f.1), f.2))
      = [("foo/a.nro", utf8 "AAA"), ("foo/sub/b.nro", utf8 "BBB")] :=
  ⟨⟨by decide, rfl, rfl, by decide, by decide!⟩,
   (zipDirectory_entries demoEnv zipScene zipSceneCreated "foo" "public/zips/foo.zip"
      zipSceneEntries (by decide) rfl rfl (by decide) (by decide!)).1,
   by decide!⟩

/-- Counterexample to C7 as stated.  The files of package `foo` have the
relative paths `a.nro` and `sub/b.nro`; the entries of the archive that
`zipDirectory` writes are named `foo/a.nro` and `foo/sub/b.nro`, so extracting
it gives the files `foo/a.nro` and `foo/sub/b.nro`. -/
theorem zip_entry_names_keep_the_package_directory :
    (filesIn [] zipSceneEntries).map (fun f => joinSlash f.1) = ["a.nro", "sub/b.nro"] ∧
    ((zipWalk demoEnv "foo" "public/zips/foo.zip"
      ((walk demoEnv zipSceneCreated "foo").getD []) []).getD []).map ZipEntry.name
      = ["foo/a.nro", "foo/sub/b.nro"] ∧
    (zipDirectory demoEnv "foo" "public/zips/foo.zip" zipScene).result.map Prod.fst
      = some true ∧
    (zipDirectory demoEnv "foo" "public/zips/foo.zip" zipScene).result.bind
        (fun r => readFile demoEnv r.2 "public/zips/foo.zip")
      = some (showEntries [⟨"foo/a.nro", false, utf8 "AAA"⟩,
          ⟨"foo/sub/b.nro", false, utf8 "BBB"⟩]) ∧
    extractedFiles [⟨"foo/a.nro", false, utf8 "AAA"⟩, ⟨"foo/sub/b.nro", false, utf8 "BBB"⟩]
      = [(["foo", "a.nro"], utf8 "AAA"), (["foo", "sub", "b.nro"], utf8 "BBB")] ∧
    filesIn [] zipSceneEntries
      = [(["a.nro"], utf8 "AAA"), (["sub", "b.nro"], utf8 "BBB")] ∧
    showEntries [⟨"foo/a.nro", false, utf8 "AAA"⟩, ⟨"foo/sub/b.nro", false, utf8 "BBB"⟩]
      ≠ showEntries [⟨"a.nro", false, utf8 "AAA"⟩, ⟨"sub/b.nro", false, utf8 "BBB"⟩] := by
  decide!

/-! ## C8: a malformed descriptor -/

/-- C8 (code evaluated at the failing input).  The working directory holds the
packages `bad` and `foo`.  When `bad/pkgbuild.json` is no JSON at all, `bad` is
reported and `foo` is built and indexed.  When `bad/pkgbuild.json` is the JSON
object without any field, the type assertion on `assets` panics: the run dies,
`foo` is never reached and no `repo.json` is written. -/
theorem malformed_descriptor_kills_the_run :
    (main demoEnv (startState
      [("bad", .dir [("pkgbuild.json", .file (utf8 "no json"))]), configFile, fooDir "foo 1.0"])).isDone
      = true ∧
    (main demoEnv (startState
      [("bad", .dir [("pkgbuild.json", .file (utf8 "no json"))]), configFile,
       fooDir "foo 1.0"])).state.repoPackages.map (fieldOf "name") = [some "foo"] ∧
    (main demoEnv (startState
      [("bad", .dir [("pkgbuild.json", .file (utf8 "empty object"))]), configFile,
       fooDir "foo 1.0"])).isPanic = true ∧
    (main demoEnv (startState
      [("bad", .dir [("pkgbuild.json", .file (utf8 "empty object"))]), configFile,
       fooDir "foo 1.0"])).state.repoPackages.length = 0 ∧
    readFile demoEnv (main demoEnv (startState
      [("bad", .dir [("pkgbuild.json", .file (utf8 "empty object"))]), configFile,
       fooDir "foo 1.0"])).state.fs "foo/manifest.install" = none ∧
    readFile demoEnv (main demoEnv (startState
      [("bad", .dir [("pkgbuild.json", .file (utf8 "empty object"))]), configFile,
       fooDir "foo 1.0"])).state.fs "public/repo.json" = none := by
  decide!

/-- In general: a panic in one iteration ends the package loop; the packages
after it are not processed. -/
theorem buildAll_stops_at_panic (env : Env) (updatingRepo : Bool) (previousRepoJSON : GoMap)
    (pkg : String) (rest : List String) (s s1 : State)
    (h : packageStep env updatingRepo previousRepoJSON pkg s = .panic s1) :
    buildAll env updatingRepo previousRepoJSON (pkg :: rest) s = .panic s1 := by
  simp [buildAll, h]

/-- In general: a descriptor that loads, is not skipped and has no `assets`
array makes the iteration panic as soon as its manifest has been created. -/
theorem packageStep_panics_without_assets (env : Env) (pkg : String) (pkgBuild : GoMap)
    (s : State) (hload : loadJSONFile env s.fs (filepathJoin [pkg, "pkgbuild.json"]) = some pkgBuild)
    (hassets : castArr (pkgBuild.get "assets") = none)
    (hcreate : (osCreate env s.fs (filepathJoin [pkg, "manifest.install"])).isSome = true) :
    (packageStep env false [] pkg s).isPanic = true := by
  obtain ⟨fs1, hfs1⟩ := Option.isSome_iff_exists.mp hcreate
  simp [packageStep, hload, skipGuard, buildPackage, hfs1, hassets, Outcome.isPanic]

/-! ## C9: the default configuration -/

/-- C9 (code evaluated at the failing input).  Without a `config.json` the
`config` map keeps its defaults, whose lists are `[]string` values.  With one
directory `foo` in the listing, `getPkgDirs` panics on
`config["ignored_directories"].([]interface{})`; with one file in the package
tree, `getBinaryPath` panics on the same assertion for
`valid_binary_extensions`; and `main` as a whole panics.  The same happens with
a `config.json` that only sets `output_directory`.  With a `config.json` that
sets all three keys the run ends normally. -/
theorem default_config_panics :
    (loadConfig demoEnv (startState [fooDir "foo 1.0"])).1 = false ∧
    (getPkgDirs demoEnv (startState [fooDir "foo 1.0"])).isPanic = true ∧
    (getBinaryPath demoEnv (demoInfo "tool" "1.0" []) "foo"
      (startState [fooDir "foo 1.0"])).isPanic = true ∧
    (main demoEnv (startState [fooDir "foo 1.0"])).isPanic = true ∧
    (loadConfig demoEnv
      (startState [("config.json", .file (utf8 "config without lists")), fooDir "foo 1.0"])).1 = true ∧
    (main demoEnv
      (startState [("config.json", .file (utf8 "config without lists")), fooDir "foo 1.0"])).isPanic
      = true ∧
    (main demoEnv (startState [configFile, fooDir "foo 1.0"])).isDone = true := by
  decide!

/-- In general: with the default `config`, `getPkgDirs` panics on every
directory listing that contains a directory. -/
theorem getPkgDirsLoop_default_panics (env : Env) (fs : FNode)
    (entries : List (String × FNode)) (h : entries.any (fun e => e.2.isDir) = true) :
    (getPkgDirsLoop env fs defaultConfig entries).isPanic = true := by
  induction entries with
  | nil => simp at h
  | cons e rest ih =>
    obtain ⟨name, node⟩ := e
    by_cases hd : node.isDir = true
    · have : castArr (GoMap.get defaultConfig "ignored_directories") = none := rfl
      simp [getPkgDirsLoop, hd, this, Res.isPanic]
    · simp only [List.any_cons, Bool.or_eq_true] at h
      rcases h with h | h
      · exact absurd h hd
      · simp only [getPkgDirsLoop, hd, Bool.false_eq_true, if_false]
        exact ih h

/-! ## C10: the `updated` date -/

/-- C10 (code evaluated at the failing input).  A descriptor without
`info.timestamp` is built and its record is dated with the build time.  The
same descriptor with `"timestamp": 1700000000` makes the run panic: the JSON
number is a `float64`, and `main` asserts `int64`. -/
theorem declared_timestamp_panics :
    (main demoEnv (startState [configFile, fooDir "foo 1.0"])).isDone = true ∧
    (main demoEnv (startState [configFile, fooDir "foo 1.0"])).state.repoPackages.map
      (fieldOf "updated") = [some "1970-01-02"] ∧
    (main demoEnv (startState [configFile, fooDir "foo with timestamp"])).isPanic = true ∧
    (main demoEnv (startState [configFile, fooDir "foo with timestamp"])).state.repoPackages.length
      = 0 := by
  decide!

/-- In general: whenever `info.timestamp` is a JSON number, the map literal
`pkgInfo` panics, and with it the build of the package. -/
theorem describePackage_panics_on_number (env : Env) (pkg : String) (pkgBuild info : GoMap)
    (s : State) (x : Int) (hinfo : pkgBuild.get "info" = .obj info)
    (hts : info.get "timestamp" = .float64 x) :
    (describePackage env pkg pkgBuild s).isPanic = true := by
  have h : pkgInfoOf env pkgBuild (.float64 x) = none := by
    simp only [pkgInfoOf, hinfo, castObj, castInt64]
    split <;> simp_all
  simp [describePackage, hinfo, castObj, hts, GoVal.isNil, h, Outcome.isPanic]


end Spinarak

